import Mathlib

/-!
# The cache extension of gobay: key derivation and the memoizing wrapper

A shallow embedding of `cache/ext.go`.

* Go values of type `interface{}` are the inductive `Value`; `reflect.ValueOf(x).Kind()`
  is `Value.kind`.
* Go strings are Lean strings (texts in UTF-8, where the byte of `#` occurs only as the
  character `#`); the separator `#` is one character.
* `int`, `int64` and the `reflect` accessors `Int()`, `Uint()` are `Int` and `Nat`; the one
  place where the source does arithmetic on a machine integer, `time.Duration(ttl)*time.Second`,
  wraps modulo `2^64`.
* The backend is the interface `CacheBackend`; its state is passed explicitly.
* `encoding/json` is a parameter (`JSONCodec`).
* A Go function is a function value (`Value.func`, with its runtime name and result types)
  together with its behaviour (`Behaviour`), which may depend on the invocations made so far.
* A Go panic is `Outcome.panic`.
-/

namespace cache

/-! ## Values and kinds -/

/-- The enumeration `reflect.Kind`. -/
inductive Kind where
  | Invalid | Bool
  | Int | Int8 | Int16 | Int32 | Int64
  | Uint | Uint8 | Uint16 | Uint32 | Uint64 | Uintptr
  | Float32 | Float64 | Complex64 | Complex128
  | Array | Chan | Func | Interface | Map | Ptr | Slice | String | Struct | UnsafePointer
  deriving DecidableEq

/-- The text of a kind, as `reflect.Kind.String()` gives it. -/
def kindText : Kind → String
  | .Invalid => "invalid" | .Bool => "bool"
  | .Int => "int" | .Int8 => "int8" | .Int16 => "int16" | .Int32 => "int32" | .Int64 => "int64"
  | .Uint => "uint" | .Uint8 => "uint8" | .Uint16 => "uint16" | .Uint32 => "uint32"
  | .Uint64 => "uint64" | .Uintptr => "uintptr"
  | .Float32 => "float32" | .Float64 => "float64"
  | .Complex64 => "complex64" | .Complex128 => "complex128"
  | .Array => "array" | .Chan => "chan" | .Func => "func" | .Interface => "interface"
  | .Map => "map" | .Ptr => "ptr" | .Slice => "slice" | .String => "string"
  | .Struct => "struct" | .UnsafePointer => "unsafe.Pointer"

/-- The signed integer kinds. -/
inductive IntKind where
  | Int | Int8 | Int16 | Int32 | Int64
  deriving DecidableEq

/-- The unsigned integer kinds. -/
inductive UintKind where
  | Uint | Uint8 | Uint16 | Uint32 | Uint64 | Uintptr
  deriving DecidableEq

/-- The floating point kinds. -/
inductive FloatKind where
  | Float32 | Float64
  deriving DecidableEq

/-- The kinds whose values carry no payload in this development. -/
inductive OtherKind where
  | Complex64 | Complex128 | Array | Chan | UnsafePointer
  deriving DecidableEq

def IntKind.toKind : IntKind → Kind
  | .Int => .Int | .Int8 => .Int8 | .Int16 => .Int16 | .Int32 => .Int32 | .Int64 => .Int64

def UintKind.toKind : UintKind → Kind
  | .Uint => .Uint | .Uint8 => .Uint8 | .Uint16 => .Uint16 | .Uint32 => .Uint32
  | .Uint64 => .Uint64 | .Uintptr => .Uintptr

def FloatKind.toKind : FloatKind → Kind
  | .Float32 => .Float32 | .Float64 => .Float64

def OtherKind.toKind : OtherKind → Kind
  | .Complex64 => .Complex64 | .Complex128 => .Complex128 | .Array => .Array
  | .Chan => .Chan | .UnsafePointer => .UnsafePointer

/-- A `reflect.Type`, as far as the source looks at one: its kind, its text and whether it
implements the interface `error`. -/
structure GoType where
  kind : Kind
  name : String
  implementsError : Bool
  deriving DecidableEq

instance : Inhabited GoType := ⟨⟨Kind.Invalid, "", false⟩⟩

/-- A Go value held in an `interface{}`.

`nil` is the nil interface. A nil pointer of a pointer type is `ptr typ none`: it is NOT the nil
interface. The payload of a floating point value is its IEEE-754 bit pattern; no floating point
arithmetic is modelled. `typ` is the text of the dynamic type. -/
inductive Value where
  | nil
  | int (k : IntKind) (n : Int)
  | uint (k : UintKind) (n : Nat)
  | bool (b : Bool)
  | str (s : String)
  | float (k : FloatKind) (bits : Nat)
  | struct (typ : String) (fields : List (String × Value))
  | ptr (typ : String) (target : Option Value)
  | map (typ : String) (entries : List (Value × Value))
  | slice (typ : String) (elems : List Value)
  | func (name : String) (outs : List GoType)
  | other (k : OtherKind) (typ : String)

instance : Inhabited Value := ⟨Value.nil⟩

/-- The kind `reflect.ValueOf(v).Kind()`. -/
def Value.kind : Value → Kind
  | .nil => Kind.Invalid
  | .int k _ => k.toKind
  | .uint k _ => k.toKind
  | .bool _ => Kind.Bool
  | .str _ => Kind.String
  | .float k _ => k.toKind
  | .struct _ _ => Kind.Struct
  | .ptr _ _ => Kind.Ptr
  | .map _ _ => Kind.Map
  | .slice _ _ => Kind.Slice
  | .func _ _ => Kind.Func
  | .other k _ => k.toKind

/-- The comparison `v == nil` of an `interface{}`. -/
def Value.isNil : Value → Bool
  | .nil => true
  | _ => false

/-- The accessor `reflect.Value.Int()`. -/
def Value.intVal : Value → Int
  | .int _ n => n
  | _ => 0

/-- The accessor `reflect.Value.Uint()`. -/
def Value.uintVal : Value → Nat
  | .uint _ n => n
  | _ => 0

/-- The accessor `reflect.Value.Bool()`. -/
def Value.boolVal : Value → Bool
  | .bool b => b
  | _ => false

/-- The accessor `reflect.Value.String()` on a value of kind String. -/
def Value.strVal : Value → String
  | .str s => s
  | _ => ""

/-- The text `reflect.ValueOf(v).Type().String()`. -/
def Value.typeString : Value → String
  | .nil => "<nil>"
  | .int k _ => kindText k.toKind
  | .uint k _ => kindText k.toKind
  | .bool _ => "bool"
  | .str _ => "string"
  | .float k _ => kindText k.toKind
  | .struct typ _ => typ
  | .ptr typ _ => typ
  | .map typ _ => typ
  | .slice typ _ => typ
  | .func _ _ => "func"
  | .other _ typ => typ

/-- The result types of a function value, `f_value.Type().Out(i)` for `i < NumOut()`. -/
def Value.outs : Value → List GoType
  | .func _ outs => outs
  | _ => []

def Value.NumOut (v : Value) : Nat := v.outs.length

def Value.Out (v : Value) (i : Nat) : GoType := v.outs.getD i default

/-- A Go error value. -/
structure GoError where
  msg : String
  deriving DecidableEq

/-- The constructor `errors.New`. -/
def errors_New (text : String) : GoError := ⟨text⟩

/-- What a Go call does: it returns, or it panics. -/
inductive Outcome (α : Type) where
  | ret (a : α)
  | panic (msg : String)

/-! ## The standard library functions the source calls -/

/-- Base-10 text of a signed integer: `strconv.FormatInt(n, 10)`. -/
def FormatInt (n : Int) : String :=
  match n with
  | Int.ofNat m => Nat.repr m
  | Int.negSucc m => "-" ++ Nat.repr (m + 1)

/-- Base-10 text of an unsigned integer: `strconv.FormatUint(n, 10)`. -/
def FormatUint (n : Nat) : String := Nat.repr n

/-- The text `strconv.FormatBool(b)`. -/
def FormatBool (b : Bool) : String := if b then "true" else "false"

/-- The text `strconv.Itoa(i)`. -/
def Itoa (i : Int) : String := FormatInt i

/-- The concatenation `strings.Join(elems, sep)`. -/
def Join : List String → String → String
  | [], _ => ""
  | [a], _ => a
  | a :: b :: rest, sep => a ++ sep ++ Join (b :: rest) sep

/-- The name `runtime.FuncForPC(reflect.ValueOf(f).Pointer()).Name()`: the runtime name of a
function; the empty name for the other kinds that have a `Pointer()` (their address is no
function entry, `FuncForPC` gives nil and `Name` of nil is empty); `none` where `Pointer()`
panics. -/
def runtime_FuncName : Value → Option String
  | .func name _ => some name
  | .ptr _ _ => some ""
  | .map _ _ => some ""
  | .slice _ _ => some ""
  | .other .Chan _ => some ""
  | .other .UnsafePointer _ => some ""
  | _ => none

/-- The value of an `int64` computation: wrapped into `[-2^63, 2^63)`. -/
def wrapInt64 (x : Int) : Int := (x + 2 ^ 63) % 2 ^ 64 - 2 ^ 63

/-- The duration `time.Duration(ttl) * time.Second`, in nanoseconds. -/
def seconds (ttl : Int) : Int := wrapInt64 (ttl * 1000000000)

/-- The package `encoding/json`, as the source uses it.

`Marshal v` is `json.Marshal(v)`: the text and the error. `Unmarshal data m` is
`json.Unmarshal(data, m)`: the value of `m` after the call (a pointer, with its new target)
and the error. -/
structure JSONCodec where
  Marshal : Value → String × Option GoError
  Unmarshal : String → Value → Value × Option GoError

/-! ## The backend interface and the extension -/

/-- The interface `CacheBackend`, over a backend state `β`. Every method takes the state and
gives the state it leaves. Durations are in nanoseconds. -/
structure CacheBackend (β : Type) where
  Get : String → β → (Value × Option GoError) × β
  Set : String → Value → Int → β → Option GoError × β
  SetMany : List String → List Value → Int → β → Option GoError × β
  GetMany : List String → β → List Value × β
  Delete : String → β → Int × β
  DeleteMany : List String → β → Int × β
  Expire : String → Int → β → Bool × β
  TTL : String → β → Int × β
  Exists : String → β → Bool × β
  Clear : β → String × β
  Close : β → Option GoError × β

/-- The structure `CacheExt`. The field `pfx` is the field named prefix in the source; the
application handle `app` plays no part in the operations and is left out. -/
structure CacheExt (β : Type) where
  NS : String
  backend : CacheBackend β
  pfx : String

variable {β : Type}

/-- The argument loop of `MakeCacheKey`, one argument: the text written to `inputs[i]`, or the
error the function returns with. -/
def MakeCacheKey_arg (arg : Value) : Except GoError String :=
  let v := arg
  match v.kind with
  | Kind.Invalid => .error (errors_New "invalid")
  | Kind.Int | Kind.Int8 | Kind.Int16 | Kind.Int32 | Kind.Int64 => .ok (FormatInt v.intVal)
  | Kind.Uint | Kind.Uint8 | Kind.Uint16 | Kind.Uint32 | Kind.Uint64 | Kind.Uintptr =>
    .ok (FormatUint v.uintVal)
  | Kind.Bool => .ok (FormatBool v.boolVal)
  | Kind.String => .ok v.strVal
  | _ => .error (errors_New ("Unsupported args type: " ++ v.typeString))

/-- The argument loop of `MakeCacheKey`: the arguments are visited in order and the first
unsupported one ends the function with its error. -/
def MakeCacheKey_args : List Value → Except GoError (List String)
  | [] => .ok []
  | arg :: rest =>
    match MakeCacheKey_arg arg with
    | .error err => .error err
    | .ok s =>
      match MakeCacheKey_args rest with
      | .error err => .error err
      | .ok ss => .ok (s :: ss)

/-- The method `MakeCacheKey`. -/
def CacheExt.MakeCacheKey (_c : CacheExt β) (f : Value) (version : Int) (args : List Value) :
    Outcome (String × Option GoError) :=
  match runtime_FuncName f with
  | none => .panic "reflect: call of reflect.Value.Pointer on a value without a pointer"
  | some name =>
    match MakeCacheKey_args args with
    | .error err => .ret ("", some err)
    | .ok rendered => .ret (Join (name :: Itoa version :: rendered) "#", none)

def CacheExt.trans_key (c : CacheExt β) (key : String) : String :=
  c.pfx ++ key

/-- The method `Get`. -/
def CacheExt.Get (c : CacheExt β) (key : String) (st : β) : (Value × Option GoError) × β :=
  let transed_key := c.trans_key key
  c.backend.Get transed_key st

/-- The method `GetStruct`. The result carries `m` as the call leaves it. The type assertion
`data.(string)` panics on a stored value that is no string. -/
def CacheExt.GetStruct (c : CacheExt β) (J : JSONCodec) (key : String) (m : Value) (st : β) :
    Outcome ((Bool × Option GoError) × Value × β) :=
  if m.kind ≠ Kind.Ptr then
    .ret ((false, some (errors_New "Invalid param: m, want a struct\x27s ptr")), m, st)
  else
    let transed_key := c.trans_key key
    match c.backend.Get transed_key st with
    | ((data, err), st1) =>
      if data.isNil then .ret ((false, err), m, st1)
      else
        match data with
        | .str text =>
          match J.Unmarshal text m with
          | (m1, some err1) => .ret ((true, some err1), m1, st1)
          | (m1, none) => .ret ((true, none), m1, st1)
        | _ => .panic "interface conversion: interface {} is not string"

/-- The method `validValue`. -/
def CacheExt.validValue (_c : CacheExt β) (value : Value) (isStruct : Bool) : Option GoError :=
  let valueKind := value.kind
  if isStruct then
    match valueKind with
    | Kind.Struct | Kind.Ptr => none
    | _ => some (errors_New ("Struct value not supported type: " ++ kindText valueKind))
  else
    match valueKind with
    | Kind.Int | Kind.Int8 | Kind.Int16 | Kind.Int32 | Kind.Int64 => none
    | Kind.Uint | Kind.Uint8 | Kind.Uint16 | Kind.Uint32 | Kind.Uint64 | Kind.Uintptr => none
    | Kind.Bool => none
    | Kind.String => none
    | _ => some (errors_New ("Basic value not supported type: " ++ kindText valueKind))

/-- The method `Set`. -/
def CacheExt.Set (c : CacheExt β) (key : String) (value : Value) (ttl : Int) (st : β) :
    Option GoError × β :=
  match c.validValue value false with
  | some err => (some err, st)
  | none =>
    let transed_key := c.trans_key key
    c.backend.Set transed_key value (seconds ttl) st

/-- The method `SetStruct`. -/
def CacheExt.SetStruct (c : CacheExt β) (J : JSONCodec) (key : String) (value : Value)
    (ttl : Int) (st : β) : Option GoError × β :=
  match c.validValue value true with
  | some err => (some err, st)
  | none =>
    let transed_key := c.trans_key key
    match J.Marshal value with
    | (_, some err) => (some err, st)
    | (json_bytes, none) => c.backend.Set transed_key (Value.str json_bytes) (seconds ttl) st

/-- The loop of `SetMany`: every value is validated and every key translated, in order. The
index expression `values[i]` panics when there are fewer values than keys. -/
def CacheExt.SetMany_loop (d : CacheExt β) :
    List String → List Value → Outcome (Except GoError (List String))
  | [], _ => .ret (.ok [])
  | _ :: _, [] => .panic "runtime error: index out of range"
  | key :: keys, value :: values =>
    match d.validValue value false with
    | some err => .ret (.error err)
    | none =>
      match CacheExt.SetMany_loop d keys values with
      | .panic msg => .panic msg
      | .ret (.error err) => .ret (.error err)
      | .ret (.ok transed_keys) => .ret (.ok (d.trans_key key :: transed_keys))

/-- The method `SetMany`. -/
def CacheExt.SetMany (d : CacheExt β) (keys : List String) (values : List Value) (ttl : Int)
    (st : β) : Outcome (Option GoError × β) :=
  match d.SetMany_loop keys values with
  | .panic msg => .panic msg
  | .ret (.error err) => .ret (some err, st)
  | .ret (.ok transed_keys) => .ret (d.backend.SetMany transed_keys values (seconds ttl) st)

/-- The method `GetMany`. -/
def CacheExt.GetMany (d : CacheExt β) (keys : List String) (st : β) : List Value × β :=
  let transed_keys := keys.map d.trans_key
  d.backend.GetMany transed_keys st

/-- The method `Delete`. -/
def CacheExt.Delete (d : CacheExt β) (key : String) (st : β) : Int × β :=
  d.backend.Delete (d.trans_key key) st

/-- The method `DeleteMany`. -/
def CacheExt.DeleteMany (d : CacheExt β) (keys : List String) (st : β) : Int × β :=
  let transed_keys := keys.map d.trans_key
  d.backend.DeleteMany transed_keys st

/-- The method `Expire`. -/
def CacheExt.Expire (d : CacheExt β) (key : String) (ttl : Int) (st : β) : Bool × β :=
  d.backend.Expire (d.trans_key key) (seconds ttl) st

/-- The method `TTL`. -/
def CacheExt.TTL (d : CacheExt β) (key : String) (st : β) : Int × β :=
  d.backend.TTL (d.trans_key key) st

/-- The method `Exists`. -/
def CacheExt.Exists (d : CacheExt β) (key : String) (st : β) : Bool × β :=
  d.backend.Exists (d.trans_key key) st

/-- The method `Clear`. -/
def CacheExt.Clear (d : CacheExt β) (st : β) : String × β :=
  d.backend.Clear st

/-- The method `Close`. -/
def CacheExt.Close (c : CacheExt β) (st : β) : Option GoError × β :=
  c.backend.Close st

/-! ## The memoizing wrapper -/

/-- What calling a function value does, `f_value.Call(inputs)`: given the argument lists of
the invocations made so far (oldest first) and the arguments of this one, the first result as
`outputs[0].Interface()` gives it and the second as the type assertion to `error` sees it
(`none` for the nil interface), or `none` when the call panics. -/
abbrev Behaviour := List (List Value) → List Value → Option (Value × Option GoError)

/-- The state a wrapped function runs in: the state of the backend and the record of the
invocations of the original function (their argument lists, oldest first). -/
structure World (β : Type) where
  store : β
  calls : List (List Value)

/-- The value `reflect.New(t)` held in an `interface{}`: a `reflect.Value`, which is a
structure; its unexported fields are not modelled. -/
def reflect_New (_t : GoType) : Value := Value.struct "reflect.Value" []

/-- The address `&x` of an `interface{}` variable holding `x`. -/
def addressOf (x : Value) : Value := Value.ptr "*interface {}" (some x)

/-- The variable behind a pointer made by `addressOf`. -/
def pointee : Value → Value
  | .ptr _ (some x) => x
  | _ => Value.nil

/-- The type of the function `CachedFunc` returns. -/
abbrev Wrapper (β : Type) :=
  List Value → World β → Outcome ((Value × Option GoError) × World β)

/-- The function `CachedFunc` returns when it rejects its argument. -/
def CachedFunc_noop : Wrapper β :=
  fun _args w => .ret ((Value.nil, none), w)

/-- The branch `if reCall` of the wrapper, entered with the backend state `st` the lookup
left and the `cache_res` it left. -/
def CachedFunc_recall (c : CacheExt β) (J : JSONCodec) (call : Behaviour) (ttl : Int)
    (cache_key : String) (isStruct : Bool) (cache_res : Value) (args : List Value)
    (calls : List (List Value)) (st : β) : Outcome ((Value × Option GoError) × World β) :=
  match call calls args with
  | none => .panic "panic in reflect.Value.Call"
  | some (call_res, some call_err) =>
    .ret ((call_res, some call_err), ⟨st, calls ++ [args]⟩)
  | some (call_res, none) =>
    if call_res.isNil = false then
      if isStruct then
        match c.SetStruct J cache_key call_res ttl st with
        | (some err, st1) => .ret ((call_res, some err), ⟨st1, calls ++ [args]⟩)
        | (none, st1) => .ret ((call_res, none), ⟨st1, calls ++ [args]⟩)
      else
        match c.Set cache_key call_res ttl st with
        | (some err, st1) => .ret ((call_res, some err), ⟨st1, calls ++ [args]⟩)
        | (none, st1) => .ret ((call_res, none), ⟨st1, calls ++ [args]⟩)
    else .ret ((cache_res, none), ⟨st, calls ++ [args]⟩)

/-- The function `CachedFunc` returns when it accepts `function`. -/
def CachedFunc_wrapper (c : CacheExt β) (J : JSONCodec) (function : Value) (call : Behaviour)
    (ttl : Int) (version : Int) : Wrapper β :=
  fun args w =>
    match c.MakeCacheKey function version args with
    | .panic msg => .panic msg
    | .ret (_, some err) => .ret ((Value.nil, some err), w)
    | .ret (cache_key, none) =>
      let isStruct : Bool :=
        (function.Out 0).kind = Kind.Struct || (function.Out 0).kind = Kind.Ptr
      if isStruct then
        let cache_res := reflect_New (function.Out 0)
        match c.GetStruct J cache_key (addressOf cache_res) w.store with
        | .panic msg => .panic msg
        | .ret ((_, some err), _, st) => .ret ((Value.nil, some err), ⟨st, w.calls⟩)
        | .ret ((exist, none), m, st) =>
          if exist = false then
            CachedFunc_recall c J call ttl cache_key isStruct (pointee m) args w.calls st
          else .ret ((pointee m, none), ⟨st, w.calls⟩)
      else
        match c.Get cache_key w.store with
        | ((_, some err), st) => .ret ((Value.nil, some err), ⟨st, w.calls⟩)
        | ((cache_res, none), st) =>
          if cache_res.isNil then
            CachedFunc_recall c J call ttl cache_key isStruct cache_res args w.calls st
          else .ret ((cache_res, none), ⟨st, w.calls⟩)

/-- The method `CachedFunc`: the wrapped function and the construction error. -/
def CacheExt.CachedFunc (c : CacheExt β) (J : JSONCodec) (function : Value) (call : Behaviour)
    (ttl : Int) (version : Int) : Wrapper β × Option GoError :=
  let f_value := function
  if f_value.kind ≠ Kind.Func then
    (CachedFunc_noop,
      some (errors_New "Generate func failed, the first param must be a function!"))
  else if f_value.NumOut ≠ 2 || !(f_value.Out 1).implementsError then
    (CachedFunc_noop,
      some (errors_New ("Generate func failed, the response of function is invalid, " ++
        "should return (SomeStruct, error)")))
  else
    (CachedFunc_wrapper c J function call ttl version, none)

/-! ## The vocabulary of the specification -/

/-- The kinds the specification allows for an argument and for a primitive value: signed
integer, unsigned integer, boolean, string. -/
def supportedKind : Kind → Bool
  | Kind.Int | Kind.Int8 | Kind.Int16 | Kind.Int32 | Kind.Int64 => true
  | Kind.Uint | Kind.Uint8 | Kind.Uint16 | Kind.Uint32 | Kind.Uint64 | Kind.Uintptr => true
  | Kind.Bool => true
  | Kind.String => true
  | _ => false

/-- A primitive value: one of a supported kind. -/
def Value.primitive (v : Value) : Bool := supportedKind v.kind

/-- The rendering of a primitive argument in the words of the specification: base 10 for the
integers, true or false for the booleans, the string itself for a string. -/
def render : Value → String
  | .int _ n => FormatInt n
  | .uint _ n => FormatUint n
  | .bool true => "true"
  | .bool false => "false"
  | .str s => s
  | _ => ""

/-- The text contains the separator `#`. -/
def hasSep (s : String) : Prop := '#' ∈ s.data

instance (s : String) : Decidable (hasSep s) := by
  unfold hasSep
  infer_instance

/-- No string argument contains the separator. -/
def sepFree : Value → Prop
  | .str s => ¬ hasSep s
  | _ => True

instance (v : Value) : Decidable (sepFree v) :=
  match v with
  | .str s => inferInstanceAs (Decidable (¬ hasSep s))
  | .nil | .int _ _ | .uint _ _ | .bool _ | .float _ _ | .struct _ _ | .ptr _ _ | .map _ _
  | .slice _ _ | .func _ _ | .other _ _ => isTrue trivial

/-- The characters a decimal digit can be. -/
def decimalDigits : List Char := ['0', '1', '2', '3', '4', '5', '6', '7', '8', '9']

/-- What `Join` puts after the first element. -/
def joinTail : List String → String
  | [] => ""
  | b :: rest => "#" ++ Join (b :: rest) "#"

/-! ## Concrete backends, functions and documents for the examples -/

/-- An entry of the in-process store: the key, the value and the duration it was set with. -/
structure MemEntry where
  key : String
  value : Value
  ttl : Int

/-- Modelled from the spec: the in-process backend `memBackend` (the interface
`CacheBackend` and its two implementations are not in `ext.go`). A mapping from string to
value: `Get` gives nil without error on a miss, `Set` overwrites, the counts of `Delete` and
`DeleteMany` are the numbers of entries removed. There is no clock: no entry expires. -/
abbrev MemStore := List MemEntry

def MemStore.find (st : MemStore) (key : String) : Option MemEntry :=
  List.find? (fun e => e.key == key) st

def MemStore.remove (st : MemStore) (key : String) : MemStore :=
  List.filter (fun e => e.key != key) st

def MemStore.put (st : MemStore) (key : String) (value : Value) (ttl : Int) : MemStore :=
  ⟨key, value, ttl⟩ :: st.remove key

def MemStore.putMany (st : MemStore) (ttl : Int) : List String → List Value → MemStore
  | key :: keys, value :: values => MemStore.putMany (st.put key value ttl) ttl keys values
  | _, _ => st

def MemStore.count (st : MemStore) (key : String) : Int :=
  if (st.find key).isSome then 1 else 0

def MemStore.removeMany (st : MemStore) : List String → Int × MemStore
  | [] => (0, st)
  | key :: keys =>
    let r := MemStore.removeMany (st.remove key) keys
    (st.count key + r.1, r.2)

/-- Modelled from the spec: the methods of the in-process backend `memBackend`. -/
def memBackend : CacheBackend MemStore where
  Get := fun key st =>
    match st.find key with
    | some e => ((e.value, none), st)
    | none => ((Value.nil, none), st)
  Set := fun key value ttl st => (none, st.put key value ttl)
  SetMany := fun keys values ttl st => (none, st.putMany ttl keys values)
  GetMany := fun keys st =>
    (keys.map (fun key => match st.find key with
      | some e => e.value
      | none => Value.nil), st)
  Delete := fun key st => (st.count key, st.remove key)
  DeleteMany := fun keys st => st.removeMany keys
  Expire := fun key ttl st =>
    match st.find key with
    | some e => (true, st.put key e.value ttl)
    | none => (false, st)
  TTL := fun key st =>
    match st.find key with
    | some e => (if e.ttl = 0 then -1 else e.ttl / 1000000000, st)
    | none => (-2, st)
  Exists := fun key st => ((st.find key).isSome, st)
  Clear := fun _ => ("OK", [])
  Close := fun st => (none, st)

/-- An extension over the in-process backend, with the key namespace `app:`. -/
def memCache : CacheExt MemStore := ⟨"", memBackend, "app:"⟩

/-- A backend whose `Get` fails the way a `go-redis` command does when the server cannot be
reached: the empty string together with the error. -/
def unreachableBackend : CacheBackend MemStore :=
  { memBackend with
    Get := fun _ st =>
      ((Value.str "", some (errors_New "dial tcp 127.0.0.1:6379: connect: connection refused")),
        st) }

def unreachableCache : CacheExt MemStore := ⟨"", unreachableBackend, "app:"⟩

/-- The type `error`. -/
def errorType : GoType := ⟨Kind.Interface, "error", true⟩

def intType : GoType := ⟨Kind.Int, "int", false⟩

/-- The structure type `Point` with the integer fields `X` and `Y`. -/
def pointType : GoType := ⟨Kind.Struct, "cache.Point", false⟩

def pointPtrType : GoType := ⟨Kind.Ptr, "*cache.Point", false⟩

/-- The value `Point{X: 1, Y: 2}`. -/
def point12 : Value :=
  Value.struct "cache.Point" [("X", Value.int IntKind.Int 1), ("Y", Value.int IntKind.Int 2)]

/-- The JSON text of `point12`. -/
def point12Text : String := "\x7b\"X\":1,\"Y\":2\x7d"

/-- What `json.Unmarshal` leaves in an empty interface for the text of `point12`: a
`map[string]interface{}` whose numbers are `float64` (here 1.0 and 2.0 as bit patterns). -/
def point12Generic : Value :=
  Value.map "map[string]interface {}"
    [(Value.str "X", Value.float FloatKind.Float64 4607182418800017408),
     (Value.str "Y", Value.float FloatKind.Float64 4611686018427387904)]

/-- The values `encoding/json` gives on the documents of the examples; everything else is
answered with an error. Decoding through a pointer to an `interface{}` that holds no pointer
replaces the content of the interface by the generic value of the text. A field whose name
is not exported (`token` of `Secret`) is neither written nor read. -/
def exampleJSON : JSONCodec where
  Marshal := fun v =>
    match v with
    | .struct "cache.Point" [("X", .int .Int 1), ("Y", .int .Int 2)] => (point12Text, none)
    | .ptr "*cache.Point" none => ("null", none)
    | .ptr "*int" (some (.int .Int 5)) => ("5", none)
    | .struct "cache.Secret" [("token", .str _)] => ("\x7b\x7d", none)
    | _ => ("", some (errors_New "json: value outside the examples"))
  Unmarshal := fun data m =>
    match m with
    | .ptr "*interface {}" (some (.struct "reflect.Value" [])) =>
      if data = point12Text then (Value.ptr "*interface {}" (some point12Generic), none)
      else if data = "null" then (Value.ptr "*interface {}" (some Value.nil), none)
      else if data = "" then (m, some (errors_New "unexpected end of JSON input"))
      else (m, some (errors_New "json: text outside the examples"))
    | .ptr "*cache.Point" (some (.struct "cache.Point" _)) =>
      if data = point12Text then (Value.ptr "*cache.Point" (some point12), none)
      else (m, some (errors_New "json: text outside the examples"))
    | .ptr "*cache.Secret" (some (.struct "cache.Secret" _)) =>
      if data = "\x7b\x7d" then (m, none)
      else (m, some (errors_New "json: text outside the examples"))
    | _ => (m, some (errors_New "json: target outside the examples"))

/-- A function `func(id int) (int, error)` that gives `id + 1`. -/
def succFn : Value := Value.func "cache.succ" [intType, errorType]

def succCall : Behaviour := fun _ args =>
  match args with
  | [.int .Int n] => some (Value.int IntKind.Int (n + 1), none)
  | _ => none

/-- A function `func(id int) (Point, error)` that gives `Point{1, 2}`. -/
def loadPoint : Value := Value.func "cache.loadPoint" [pointType, errorType]

def loadPointCall : Behaviour := fun _ args =>
  match args with
  | [.int .Int _] => some (point12, none)
  | _ => none

/-- A function `func(id int) (*Point, error)` that gives a nil pointer and no error. -/
def findPoint : Value := Value.func "cache.findPoint" [pointPtrType, errorType]

def findPointCall : Behaviour := fun _ args =>
  match args with
  | [.int .Int _] => some (Value.ptr "*cache.Point" none, none)
  | _ => none

/-- A function `func(id int) (int, error)` that fails. -/
def failFn : Value := Value.func "cache.fail" [intType, errorType]

def failCall : Behaviour := fun _ args =>
  match args with
  | [.int .Int _] => some (Value.int IntKind.Int 0, some (errors_New "not found"))
  | _ => none

/-- The test `isStruct` of the wrapper: the declared first result type is a structure or a
pointer. -/
def isStructOut (function : Value) : Bool :=
  (function.Out 0).kind = Kind.Struct || (function.Out 0).kind = Kind.Ptr

/-- What `cache_res` holds when the lookup has missed: on the structure path the value made
by `reflect.New`, otherwise the nil that `Get` returned. -/
def missRes (function : Value) : Value :=
  if isStructOut function then reflect_New (function.Out 0) else Value.nil

/-- The world after the first call of the wrapped `loadPoint` with the argument 5 on the empty
in-process backend: the JSON text under the prefixed key, one call recorded. -/
def loadPointWorld : World MemStore :=
  ⟨[⟨"app:cache.loadPoint#1#5", Value.str point12Text, 60000000000⟩],
    [[Value.int IntKind.Int 5]]⟩

/-- The world after the first call of the wrapped `findPoint` with the argument 5 on the empty
in-process backend: the text `null` under the prefixed key, one call recorded. -/
def findPointWorld : World MemStore :=
  ⟨[⟨"app:cache.findPoint#1#5", Value.str "null", 60000000000⟩],
    [[Value.int IntKind.Int 5]]⟩

/-! ## More vocabulary of the specification -/

/-- The words of the specification for a function `CachedFunc` accepts: callable, with
exactly two results, the second error-shaped. -/
def wellShaped : Value → Bool
  | .func _ [_, out1] => out1.implementsError
  | _ => false

/-- The number of nanoseconds of `ttl` seconds. -/
def ttlSeconds (ttl : Int) : Int := ttl * 1000000000

/-- The nanoseconds of `ttl` seconds fit a signed integer of 64 bits. -/
def ttlInRange (ttl : Int) : Prop := -9223372036 ≤ ttl ∧ ttl ≤ 9223372036

instance (ttl : Int) : Decidable (ttlInRange ttl) := by
  unfold ttlInRange
  infer_instance

/-- A backend where `Set` succeeds and a `Get` after a `Set` of the same key returns the
stored value without error. -/
def GetAfterSet (B : CacheBackend β) : Prop :=
  ∀ (key : String) (value : Value) (d : Int) (st : β),
    (B.Set key value d st).1 = none ∧
      (B.Get key (B.Set key value d st).2).1 = (value, none)

/-- What the reads of a backend show for one key: the results of `Get`, `Exists`, `TTL`. -/
def CacheBackend.view (B : CacheBackend β) (key : String) (st : β) :
    (Value × Option GoError) × Bool × Int :=
  ((B.Get key st).1, (B.Exists key st).1, (B.TTL key st).1)

/-- A backend whose `Set`, `Delete` and `Expire` of one key leave what the reads show for
every other key. -/
def KeyLocal (B : CacheBackend β) : Prop :=
  ∀ (a b : String), a ≠ b → ∀ (st : β),
    (∀ (value : Value) (d : Int), B.view b (B.Set a value d st).2 = B.view b st) ∧
      B.view b (B.Delete a st).2 = B.view b st ∧
      (∀ (d : Int), B.view b (B.Expire a d st).2 = B.view b st)

/-- What the caller of `GetStruct` sees: the two results and `m` after the call. -/
def GetStruct_seen (o : Outcome ((Bool × Option GoError) × Value × β)) :
    Outcome ((Bool × Option GoError) × Value) :=
  match o with
  | .ret (r, m, _) => .ret (r, m)
  | .panic msg => .panic msg

/-- What the reads of an extension show for one key: the results of `Get`, `GetStruct` (into
`m`), `Exists` and `TTL`. -/
def CacheExt.view (c : CacheExt β) (J : JSONCodec) (key : String) (m : Value) (st : β) :
    (Value × Option GoError) × Outcome ((Bool × Option GoError) × Value) × Bool × Int :=
  ((c.Get key st).1, GetStruct_seen (c.GetStruct J key m st), (c.Exists key st).1,
    (c.TTL key st).1)

/-- The text `p` is an initial segment of the text `q`: `q` is `p` followed by something,
possibly nothing. -/
def initialPart (p q : String) : Prop := p.data <+: q.data

instance (p q : String) : Decidable (initialPart p q) := by
  unfold initialPart
  infer_instance

/-! ## More values for the examples -/

/-- A pointer to the integer 5. -/
def intPtr5 : Value := Value.ptr "*int" (some (Value.int IntKind.Int 5))

/-- The value `Secret{token: "abc"}` of a structure whose only field is not exported. -/
def secretAbc : Value := Value.struct "cache.Secret" [("token", Value.str "abc")]

/-- The zero value of `Secret`. -/
def secretZero : Value := Value.struct "cache.Secret" [("token", Value.str "")]

/-- The zero value of `Point`. -/
def pointZero : Value :=
  Value.struct "cache.Point" [("X", Value.int IntKind.Int 0), ("Y", Value.int IntKind.Int 0)]

def float64Type : GoType := ⟨Kind.Float64, "float64", false⟩

/-- The value `float64(1.5)`. -/
def float15 : Value := Value.float FloatKind.Float64 4609434218613702656

/-- A function `func(id int) (float64, error)` that gives 1.5. -/
def ratioFn : Value := Value.func "cache.ratio" [float64Type, errorType]

def ratioCall : Behaviour := fun _ args =>
  match args with
  | [.int .Int _] => some (float15, none)
  | _ => none

/-- Two extensions over one in-process backend, with the prefixes `a` and `ab`. -/
def tenantA : CacheExt MemStore := ⟨"", memBackend, "a"⟩

def tenantAB : CacheExt MemStore := ⟨"", memBackend, "ab"⟩

/-- Two extensions over one in-process backend, with the prefixes `app1:` and `app2:`. -/
def tenant1 : CacheExt MemStore := ⟨"", memBackend, "app1:"⟩

def tenant2 : CacheExt MemStore := ⟨"", memBackend, "app2:"⟩

/-! # Theorems -/

/-! ## Decimal text -/

theorem toDigitsCore_acc (fuel : Nat) : ∀ (n : Nat) (ds : List Char),
    Nat.toDigitsCore 10 fuel n ds = Nat.toDigitsCore 10 fuel n [] ++ ds := by
  induction fuel with
  | zero => intro n ds; simp [Nat.toDigitsCore]
  | succ fuel ih =>
    intro n ds
    simp only [Nat.toDigitsCore]
    split
    · simp
    · rw [ih (n / 10) (Nat.digitChar (n % 10) :: ds), ih (n / 10) [Nat.digitChar (n % 10)]]
      simp

theorem toDigitsCore_fuel : ∀ (n fuel : Nat), n < fuel →
    Nat.toDigitsCore 10 fuel n [] = Nat.toDigitsCore 10 (n + 1) n [] := by
  intro n
  induction n using Nat.strong_induction_on with
  | _ n ih =>
    intro fuel hlt
    obtain ⟨f, rfl⟩ : ∃ f, fuel = f + 1 := ⟨fuel - 1, by omega⟩
    simp only [Nat.toDigitsCore]
    by_cases h0 : n / 10 = 0
    · simp [h0]
    · simp only [h0, if_false]
      have hq : n / 10 < n := by omega
      rw [toDigitsCore_acc f, toDigitsCore_acc n, ih (n / 10) hq f (by omega),
        ih (n / 10) hq n hq]

/-- The decimal digits of a number: the last digit after the digits of the tenth. -/
theorem toDigits_step (n : Nat) :
    Nat.toDigits 10 n =
      if n / 10 = 0 then [Nat.digitChar (n % 10)]
      else Nat.toDigits 10 (n / 10) ++ [Nat.digitChar (n % 10)] := by
  have hdef : ∀ k, Nat.toDigits 10 k = Nat.toDigitsCore 10 (k + 1) k [] := fun _ => rfl
  rw [hdef (n / 10), hdef n]
  by_cases h0 : n / 10 = 0
  · simp [Nat.toDigitsCore, h0]
  · rw [if_neg h0]
    have hstep : Nat.toDigitsCore 10 (n + 1) n [] =
        Nat.toDigitsCore 10 n (n / 10) [Nat.digitChar (n % 10)] := by
      simp [Nat.toDigitsCore, h0]
    rw [hstep, toDigitsCore_acc n, toDigitsCore_fuel (n / 10) n (by omega)]

theorem toDigits_ne_nil (n : Nat) : Nat.toDigits 10 n ≠ [] := by
  rw [toDigits_step]
  split <;> simp

theorem digitChar_mem (d : Nat) (h : d < 10) : Nat.digitChar d ∈ decimalDigits := by
  interval_cases d <;> decide

theorem digitChar_inj (a b : Nat) (ha : a < 10) (hb : b < 10)
    (h : Nat.digitChar a = Nat.digitChar b) : a = b := by
  interval_cases a <;> interval_cases b <;> first | rfl | (exact absurd h (by decide))

theorem toDigits_mem : ∀ (n : Nat) (ch : Char), ch ∈ Nat.toDigits 10 n → ch ∈ decimalDigits := by
  intro n
  induction n using Nat.strong_induction_on with
  | _ n ih =>
    intro ch hch
    rw [toDigits_step] at hch
    have hd : Nat.digitChar (n % 10) ∈ decimalDigits := digitChar_mem _ (Nat.mod_lt _ (by decide))
    by_cases h0 : n / 10 = 0
    · simp only [h0, if_true, List.mem_singleton] at hch
      rw [hch]; exact hd
    · simp only [h0, if_false, List.mem_append, List.mem_singleton] at hch
      rcases hch with h | h
      · exact ih (n / 10) (by omega) ch h
      · rw [h]; exact hd

theorem toDigits_inj : ∀ (a b : Nat), Nat.toDigits 10 a = Nat.toDigits 10 b → a = b := by
  intro a
  induction a using Nat.strong_induction_on with
  | _ a ih =>
    intro b h
    rw [toDigits_step a, toDigits_step b] at h
    by_cases ha : a / 10 = 0 <;> by_cases hb : b / 10 = 0
    · simp only [ha, hb, if_true, List.cons.injEq, and_true] at h
      have := digitChar_inj _ _ (Nat.mod_lt a (by decide)) (Nat.mod_lt b (by decide)) h
      omega
    · simp only [ha, hb, if_true, if_false] at h
      have hl := congrArg List.length h
      have hne := toDigits_ne_nil (b / 10)
      have : 0 < (Nat.toDigits 10 (b / 10)).length := List.length_pos.mpr hne
      simp only [List.length_append, List.length_singleton, List.length_cons,
        List.length_nil] at hl
      omega
    · simp only [ha, hb, if_true, if_false] at h
      have hl := congrArg List.length h
      have hne := toDigits_ne_nil (a / 10)
      have : 0 < (Nat.toDigits 10 (a / 10)).length := List.length_pos.mpr hne
      simp only [List.length_append, List.length_singleton, List.length_cons,
        List.length_nil] at hl
      omega
    · simp only [ha, hb, if_false] at h
      have h1 := List.append_inj' h (by simp)
      have hq : a / 10 = b / 10 := ih (a / 10) (by omega) (b / 10) h1.1
      have hr : a % 10 = b % 10 :=
        digitChar_inj _ _ (Nat.mod_lt a (by decide)) (Nat.mod_lt b (by decide))
          (by simpa using h1.2)
      omega

theorem repr_data (n : Nat) : (Nat.repr n).data = Nat.toDigits 10 n := rfl

theorem FormatUint_inj (a b : Nat) (h : FormatUint a = FormatUint b) : a = b := by
  apply toDigits_inj
  have := congrArg String.data h
  simpa [FormatUint, repr_data] using this

theorem FormatInt_data_nonneg (m : Nat) : (FormatInt (Int.ofNat m)).data = Nat.toDigits 10 m := rfl

theorem FormatInt_data_neg (m : Nat) :
    (FormatInt (Int.negSucc m)).data = '-' :: Nat.toDigits 10 (m + 1) := rfl

theorem FormatInt_inj (a b : Int) (h : FormatInt a = FormatInt b) : a = b := by
  have hd := congrArg String.data h
  cases a with
  | ofNat m =>
    cases b with
    | ofNat k =>
      rw [FormatInt_data_nonneg, FormatInt_data_nonneg] at hd
      rw [toDigits_inj m k hd]
    | negSucc k =>
      rw [FormatInt_data_nonneg, FormatInt_data_neg] at hd
      have : '-' ∈ Nat.toDigits 10 m := by rw [hd]; simp
      exact absurd (toDigits_mem m _ this) (by decide)
  | negSucc m =>
    cases b with
    | ofNat k =>
      rw [FormatInt_data_nonneg, FormatInt_data_neg] at hd
      have : '-' ∈ Nat.toDigits 10 k := by rw [← hd]; simp
      exact absurd (toDigits_mem k _ this) (by decide)
    | negSucc k =>
      rw [FormatInt_data_neg, FormatInt_data_neg] at hd
      have := toDigits_inj (m + 1) (k + 1) (List.cons.inj hd).2
      have : m = k := by omega
      rw [this]

theorem FormatUint_sepFree (n : Nat) : ¬ hasSep (FormatUint n) := by
  intro h
  exact absurd (toDigits_mem n _ h) (by decide)

theorem FormatInt_sepFree (n : Int) : ¬ hasSep (FormatInt n) := by
  intro h
  unfold hasSep at h
  cases n with
  | ofNat m =>
    rw [FormatInt_data_nonneg] at h
    exact absurd (toDigits_mem m _ h) (by decide)
  | negSucc m =>
    rw [FormatInt_data_neg] at h
    rcases List.mem_cons.mp h with h | h
    · exact absurd h (by decide)
    · exact absurd (toDigits_mem _ _ h) (by decide)

/-! ## Joined text -/

theorem append_left_cancel (p a b : String) (h : p ++ a = p ++ b) : a = b := by
  have hd := congrArg String.data h
  simp only [String.data_append] at hd
  exact String.ext (List.append_cancel_left hd)

theorem append_right_cancel (a b t : String) (h : a ++ t = b ++ t) : a = b := by
  have hd := congrArg String.data h
  simp only [String.data_append] at hd
  exact String.ext (List.append_cancel_right hd)

theorem Join_cons (a : String) (rest : List String) :
    Join (a :: rest) "#" = a ++ joinTail rest := by
  cases rest with
  | nil => simp [Join, joinTail]
  | cons b rest => simp [Join, joinTail, String.append_assoc]

theorem split_unique : ∀ (a b x y : List Char), '#' ∉ a → '#' ∉ b →
    a ++ '#' :: x = b ++ '#' :: y → a = b ∧ x = y := by
  intro a
  induction a with
  | nil =>
    intro b x y _ hb h
    cases b with
    | nil => simpa using h
    | cons ch b =>
      simp only [List.nil_append, List.cons_append, List.cons.injEq] at h
      exact absurd (h.1 ▸ List.mem_cons_self _ _) hb
  | cons ch a ih =>
    intro b x y ha hb h
    cases b with
    | nil =>
      simp only [List.nil_append, List.cons_append, List.cons.injEq] at h
      exact absurd (h.1 ▸ List.mem_cons_self _ _) ha
    | cons ch2 b =>
      simp only [List.cons_append, List.cons.injEq] at h
      have ha2 : '#' ∉ a := fun hm => ha (List.mem_cons_of_mem _ hm)
      have hb2 : '#' ∉ b := fun hm => hb (List.mem_cons_of_mem _ hm)
      obtain ⟨h1, h2⟩ := ih b x y ha2 hb2 h.2
      exact ⟨by rw [h.1, h1], h2⟩

theorem joinTail_cons (b : String) (rest : List String) :
    joinTail (b :: rest) = "#" ++ Join (b :: rest) "#" := rfl

theorem joinTail_data_cons (b : String) (rest : List String) :
    (joinTail (b :: rest)).data = '#' :: (Join (b :: rest) "#").data := rfl

/-- Joining with `#` loses nothing when no element contains `#`. -/
theorem Join_inj : ∀ (l1 l2 : List String), l1 ≠ [] → l2 ≠ [] →
    (∀ s ∈ l1, ¬ hasSep s) → (∀ s ∈ l2, ¬ hasSep s) →
    Join l1 "#" = Join l2 "#" → l1 = l2 := by
  intro l1
  induction l1 with
  | nil => intro l2 h; exact absurd rfl h
  | cons a r1 ih =>
    intro l2 _ h2 hs1 hs2 h
    cases l2 with
    | nil => exact absurd rfl h2
    | cons b r2 =>
      rw [Join_cons, Join_cons] at h
      have hd := congrArg String.data h
      simp only [String.data_append] at hd
      have ha : '#' ∉ a.data := hs1 a (List.mem_cons_self _ _)
      have hb : '#' ∉ b.data := hs2 b (List.mem_cons_self _ _)
      cases r1 with
      | nil =>
        cases r2 with
        | nil =>
          simp only [joinTail, String.data_append] at hd
          have : a = b := String.ext (by simpa using hd)
          rw [this]
        | cons c2 r2 =>
          rw [joinTail_data_cons] at hd
          simp only [joinTail, List.append_nil] at hd
          have : '#' ∈ a.data := by
            rw [hd]; simp
          exact absurd this ha
      | cons c1 r1 =>
        cases r2 with
        | nil =>
          rw [joinTail_data_cons] at hd
          have : '#' ∈ b.data := by
            have hnil : (joinTail []).data = [] := rfl
            rw [hnil, List.append_nil] at hd
            rw [← hd]; simp
          exact absurd this hb
        | cons c2 r2 =>
          rw [joinTail_data_cons, joinTail_data_cons] at hd
          obtain ⟨h1, h3⟩ := split_unique _ _ _ _ ha hb hd
          have hab : a = b := String.ext h1
          have hrest : c1 :: r1 = c2 :: r2 :=
            ih (c2 :: r2) (by simp) (by simp)
              (fun s hs => hs1 s (List.mem_cons_of_mem _ hs))
              (fun s hs => hs2 s (List.mem_cons_of_mem _ hs)) (String.ext h3)
          rw [hab, hrest]

/-! ## The argument loop -/

theorem MakeCacheKey_arg_primitive (a : Value) (h : a.primitive = true) :
    MakeCacheKey_arg a = .ok (render a) := by
  cases a with
  | int k n => cases k <;> rfl
  | uint k n => cases k <;> rfl
  | bool b => cases b <;> rfl
  | str s => rfl
  | float k bits => cases k <;> simp [Value.primitive, Value.kind, FloatKind.toKind, supportedKind] at h
  | other k typ => cases k <;> simp [Value.primitive, Value.kind, OtherKind.toKind, supportedKind] at h
  | _ => simp [Value.primitive, Value.kind, supportedKind] at h

theorem MakeCacheKey_arg_unsupported (a : Value) (h : a.primitive = false) :
    ∃ err, MakeCacheKey_arg a = .error err := by
  cases a with
  | int k n => cases k <;> simp [Value.primitive, Value.kind, IntKind.toKind, supportedKind] at h
  | uint k n => cases k <;> simp [Value.primitive, Value.kind, UintKind.toKind, supportedKind] at h
  | bool b => simp [Value.primitive, Value.kind, supportedKind] at h
  | str s => simp [Value.primitive, Value.kind, supportedKind] at h
  | float k bits => cases k <;> exact ⟨_, rfl⟩
  | other k typ => cases k <;> exact ⟨_, rfl⟩
  | _ => exact ⟨_, rfl⟩

theorem MakeCacheKey_args_primitive : ∀ (args : List Value),
    (∀ a ∈ args, a.primitive = true) → MakeCacheKey_args args = .ok (args.map render) := by
  intro args
  induction args with
  | nil => intro _; rfl
  | cons a rest ih =>
    intro h
    simp only [MakeCacheKey_args, MakeCacheKey_arg_primitive a (h a (List.mem_cons_self _ _)),
      ih (fun b hb => h b (List.mem_cons_of_mem _ hb)), List.map_cons]

theorem MakeCacheKey_args_unsupported : ∀ (args : List Value),
    (∃ a ∈ args, a.primitive = false) → ∃ err, MakeCacheKey_args args = .error err := by
  intro args
  induction args with
  | nil => intro h; obtain ⟨a, ha, _⟩ := h; cases ha
  | cons a rest ih =>
    intro h
    cases hp : a.primitive with
    | false =>
      obtain ⟨err, herr⟩ := MakeCacheKey_arg_unsupported a hp
      exact ⟨err, by simp only [MakeCacheKey_args, herr]⟩
    | true =>
      obtain ⟨b, hb, hbp⟩ := h
      rcases List.mem_cons.mp hb with hba | hbr
      · rw [hba, hp] at hbp; cases hbp
      · obtain ⟨err, herr⟩ := ih ⟨b, hbr, hbp⟩
        exact ⟨err, by simp only [MakeCacheKey_args, MakeCacheKey_arg_primitive a hp, herr]⟩

/-- The key of a function value with primitive arguments. -/
theorem MakeCacheKey_func (c : CacheExt β) (name : String) (outs : List GoType) (version : Int)
    (args : List Value) (h : ∀ a ∈ args, a.primitive = true) :
    c.MakeCacheKey (Value.func name outs) version args =
      .ret (Join (name :: FormatInt version :: args.map render) "#", none) := by
  simp only [CacheExt.MakeCacheKey, runtime_FuncName, MakeCacheKey_args_primitive args h, Itoa]

theorem render_sepFree (a : Value) (h : sepFree a) : ¬ hasSep (render a) := by
  cases a with
  | int k n => exact FormatInt_sepFree n
  | uint k n => exact FormatUint_sepFree n
  | bool b => cases b <;> decide
  | str s => exact h
  | _ => exact (by decide : ¬ hasSep "")

/-- Equal keys come from equal identities, equal versions and equal renderings, when no
identity and no string argument contains the separator. -/
theorem key_inj (id1 id2 : String) (v1 v2 : Int) (args1 args2 : List Value)
    (hid1 : ¬ hasSep id1) (hid2 : ¬ hasSep id2)
    (hs1 : ∀ a ∈ args1, sepFree a) (hs2 : ∀ a ∈ args2, sepFree a)
    (h : Join (id1 :: FormatInt v1 :: args1.map render) "#" =
      Join (id2 :: FormatInt v2 :: args2.map render) "#") :
    id1 = id2 ∧ v1 = v2 ∧ args1.map render = args2.map render := by
  have hfree : ∀ (name : String) (v : Int) (args : List Value), ¬ hasSep name →
      (∀ a ∈ args, sepFree a) → ∀ s ∈ name :: FormatInt v :: args.map render, ¬ hasSep s := by
    intro name v args hn hs s hmem
    rcases List.mem_cons.mp hmem with h1 | h1
    · rw [h1]; exact hn
    · rcases List.mem_cons.mp h1 with h2 | h2
      · rw [h2]; exact FormatInt_sepFree v
      · obtain ⟨a, ha, rfl⟩ := List.mem_map.mp h2
        exact render_sepFree a (hs a ha)
  have hl := Join_inj _ _ (by simp) (by simp) (hfree id1 v1 args1 hid1 hs1)
    (hfree id2 v2 args2 hid2 hs2) h
  simp only [List.cons.injEq] at hl
  exact ⟨hl.1, FormatInt_inj _ _ hl.2.1, hl.2.2⟩

/-! ## Key derivation -/

/-- C1: for every identity, every version and every list of arguments that are all signed
integers, unsigned integers, booleans or strings, `MakeCacheKey` succeeds and returns the
identity, the decimal version and the rendered arguments joined with `#`; with no arguments
the key is the identity, `#` and the version. -/
theorem MakeCacheKey_key_format (c : CacheExt β) (identity : String) (outs : List GoType)
    (version : Int) (args : List Value) (h : ∀ a ∈ args, a.primitive = true) :
    c.MakeCacheKey (Value.func identity outs) version args =
        Outcome.ret (Join ([identity, FormatInt version] ++ args.map render) "#", none) ∧
      c.MakeCacheKey (Value.func identity outs) version [] =
        Outcome.ret (identity ++ "#" ++ FormatInt version, none) :=
  ⟨MakeCacheKey_func c identity outs version args h,
    MakeCacheKey_func c identity outs version [] (fun _ hm => nomatch hm)⟩

/-- The key of `cache.succ`, version 3, with one argument of each supported kind. -/
theorem MakeCacheKey_key_format_witness :
    (∀ a ∈ [Value.int IntKind.Int64 (-5), Value.uint UintKind.Uint8 7, Value.bool true,
        Value.str "eu"], a.primitive = true) ∧
      memCache.MakeCacheKey succFn 3 [Value.int IntKind.Int64 (-5), Value.uint UintKind.Uint8 7,
        Value.bool true, Value.str "eu"] = Outcome.ret ("cache.succ#3#-5#7#true#eu", none) :=
  ⟨by decide,
    (MakeCacheKey_key_format memCache "cache.succ" [intType, errorType] 3
      [Value.int IntKind.Int64 (-5), Value.uint UintKind.Uint8 7, Value.bool true,
        Value.str "eu"] (by decide)).1⟩

/-- C2: `MakeCacheKey` fails exactly when some argument, at any position, has a kind outside
signed integer, unsigned integer, boolean and string; it succeeds exactly when every argument
has a supported kind; and whenever it returns an error the key it returns is empty. -/
theorem MakeCacheKey_fails_iff (c : CacheExt β) (identity : String) (outs : List GoType)
    (version : Int) (args : List Value) :
    ((∃ err, c.MakeCacheKey (Value.func identity outs) version args =
        Outcome.ret ("", some err)) ↔ ∃ a ∈ args, a.primitive = false) ∧
      ((∃ key, c.MakeCacheKey (Value.func identity outs) version args =
        Outcome.ret (key, none)) ↔ ∀ a ∈ args, a.primitive = true) ∧
      (∀ key err, c.MakeCacheKey (Value.func identity outs) version args =
        Outcome.ret (key, some err) → key = "") := by
  by_cases hall : ∀ a ∈ args, a.primitive = true
  · have hk := MakeCacheKey_func c identity outs version args hall
    refine ⟨⟨?_, ?_⟩, ⟨fun _ => hall, fun _ => ⟨_, hk⟩⟩, ?_⟩
    · rintro ⟨err, herr⟩
      rw [hk] at herr
      simp at herr
    · rintro ⟨a, ha, hp⟩
      rw [hall a ha] at hp
      cases hp
    · intro key err herr
      rw [hk] at herr
      simp at herr
  · have hex : ∃ a ∈ args, a.primitive = false := by
      by_contra hno
      apply hall
      intro a ha
      cases hp : a.primitive with
      | true => rfl
      | false => exact absurd ⟨a, ha, hp⟩ hno
    obtain ⟨err, herr⟩ := MakeCacheKey_args_unsupported args hex
    have hk : c.MakeCacheKey (Value.func identity outs) version args =
        Outcome.ret ("", some err) := by
      simp only [CacheExt.MakeCacheKey, runtime_FuncName, herr]
    refine ⟨⟨fun _ => hex, fun _ => ⟨err, hk⟩⟩, ⟨?_, fun h => absurd h hall⟩, ?_⟩
    · rintro ⟨key, hkey⟩
      rw [hk] at hkey
      simp at hkey
    · intro key err2 h2
      rw [hk] at h2
      simp only [Outcome.ret.injEq, Prod.mk.injEq] at h2
      exact h2.1.symm

/-- C3, as stated, fails: an integer argument 1 and a string argument `1` are different
arguments (of different kinds), nothing contains `#`, and the two keys are the same. -/
theorem MakeCacheKey_collision_across_kinds :
    [Value.int IntKind.Int 1] ≠ [Value.str "1"] ∧
      ¬ hasSep "cache.succ" ∧ sepFree (Value.int IntKind.Int 1) ∧ sepFree (Value.str "1") ∧
      (Value.int IntKind.Int 1).primitive = true ∧ (Value.str "1").primitive = true ∧
      memCache.MakeCacheKey succFn 1 [Value.int IntKind.Int 1] =
        Outcome.ret ("cache.succ#1#1", none) ∧
      memCache.MakeCacheKey succFn 1 [Value.str "1"] =
        Outcome.ret ("cache.succ#1#1", none) :=
  ⟨fun h => (nomatch h), by decide, trivial, by decide, rfl, rfl, rfl, rfl⟩

/-- C3, amended: for two inputs with primitive arguments in which neither identity nor any
string argument contains `#`, if the inputs differ in identity, in version, or in the list of
the renderings of their arguments (its length or the rendering at some position), then both
calls succeed and the two keys are different. -/
theorem MakeCacheKey_distinct_keys (c : CacheExt β) (id1 id2 : String)
    (outs1 outs2 : List GoType) (v1 v2 : Int) (args1 args2 : List Value)
    (hp1 : ∀ a ∈ args1, a.primitive = true) (hp2 : ∀ a ∈ args2, a.primitive = true)
    (hid1 : ¬ hasSep id1) (hid2 : ¬ hasSep id2)
    (hs1 : ∀ a ∈ args1, sepFree a) (hs2 : ∀ a ∈ args2, sepFree a)
    (hdiff : id1 ≠ id2 ∨ v1 ≠ v2 ∨ args1.map render ≠ args2.map render) :
    ∃ k1 k2, c.MakeCacheKey (Value.func id1 outs1) v1 args1 = Outcome.ret (k1, none) ∧
      c.MakeCacheKey (Value.func id2 outs2) v2 args2 = Outcome.ret (k2, none) ∧ k1 ≠ k2 := by
  refine ⟨_, _, MakeCacheKey_func c id1 outs1 v1 args1 hp1,
    MakeCacheKey_func c id2 outs2 v2 args2 hp2, ?_⟩
  intro heq
  obtain ⟨h1, h2, h3⟩ := key_inj id1 id2 v1 v2 args1 args2 hid1 hid2 hs1 hs2 heq
  rcases hdiff with h | h | h
  · exact h h1
  · exact h h2
  · exact h h3

/-- The arguments `(12, "3")` and `(1, "23")` give different keys. -/
theorem MakeCacheKey_distinct_keys_witness :
    ∃ k1 k2, memCache.MakeCacheKey succFn 1 [Value.int IntKind.Int 12, Value.str "3"] =
        Outcome.ret (k1, none) ∧
      memCache.MakeCacheKey succFn 1 [Value.int IntKind.Int 1, Value.str "23"] =
        Outcome.ret (k2, none) ∧ k1 ≠ k2 :=
  MakeCacheKey_distinct_keys memCache "cache.succ" "cache.succ" [intType, errorType]
    [intType, errorType] 1 1 [Value.int IntKind.Int 12, Value.str "3"]
    [Value.int IntKind.Int 1, Value.str "23"] (by decide) (by decide) (by decide) (by decide)
    (by decide) (by decide)
    (Or.inr (Or.inr (by decide)))

/-- C4: for every identity, every list of primitive arguments and every two different
versions, both calls of `MakeCacheKey` succeed and the two keys are different. -/
theorem MakeCacheKey_version_changes_key (c : CacheExt β) (identity : String)
    (outs : List GoType) (args : List Value) (v1 v2 : Int)
    (hp : ∀ a ∈ args, a.primitive = true) (hv : v1 ≠ v2) :
    ∃ k1 k2, c.MakeCacheKey (Value.func identity outs) v1 args = Outcome.ret (k1, none) ∧
      c.MakeCacheKey (Value.func identity outs) v2 args = Outcome.ret (k2, none) ∧
      k1 ≠ k2 := by
  refine ⟨_, _, MakeCacheKey_func c identity outs v1 args hp,
    MakeCacheKey_func c identity outs v2 args hp, ?_⟩
  intro heq
  rw [Join_cons, Join_cons, joinTail_cons, joinTail_cons, Join_cons, Join_cons] at heq
  exact hv (FormatInt_inj _ _ (append_right_cancel _ _ _ (append_left_cancel _ _ _
    (append_left_cancel _ _ _ heq))))

/-- The versions 1 and 2 give different keys, here with an argument that contains `#`. -/
theorem MakeCacheKey_version_changes_key_witness :
    ∃ k1 k2, memCache.MakeCacheKey succFn 1 [Value.str "a#b", Value.bool false] =
        Outcome.ret (k1, none) ∧
      memCache.MakeCacheKey succFn 2 [Value.str "a#b", Value.bool false] =
        Outcome.ret (k2, none) ∧ k1 ≠ k2 :=
  MakeCacheKey_version_changes_key memCache "cache.succ" [intType, errorType]
    [Value.str "a#b", Value.bool false] 1 2 (by decide) (by decide)

/-- C5: `MakeCacheKey` is a function of the function value, the version and the arguments
alone: two extensions, whatever their prefixes, backends and backend types, return the same
key and the same error for the same input (and the method takes no backend state at all). -/
theorem MakeCacheKey_deterministic {β1 β2 : Type} (c1 : CacheExt β1) (c2 : CacheExt β2)
    (f : Value) (version : Int) (args : List Value) :
    c1.MakeCacheKey f version args = c2.MakeCacheKey f version args := rfl

/-! ## The memoizing wrapper -/

/-- When `CachedFunc` returns no error, the function it returns is the checking wrapper. -/
theorem CachedFunc_accepted (c : CacheExt β) (J : JSONCodec) (function : Value)
    (call : Behaviour) (ttl version : Int)
    (hok : (c.CachedFunc J function call ttl version).2 = none) :
    (c.CachedFunc J function call ttl version).1 =
      CachedFunc_wrapper c J function call ttl version := by
  unfold CacheExt.CachedFunc at hok ⊢
  simp only at hok ⊢
  split
  · rename_i h; rw [if_pos h] at hok; cases hok
  · rename_i h
    rw [if_neg h] at hok
    split
    · rename_i h2; rw [if_pos h2] at hok; cases hok
    · rfl

/-- On a miss the wrapper goes on to the branch that calls the function. -/
theorem wrapper_miss (c : CacheExt β) (J : JSONCodec) (function : Value) (call : Behaviour)
    (ttl version : Int) (args : List Value) (w : World β) (key : String) (st1 : β)
    (hkey : c.MakeCacheKey function version args = Outcome.ret (key, none))
    (hmiss : c.backend.Get (c.trans_key key) w.store = ((Value.nil, none), st1)) :
    CachedFunc_wrapper c J function call ttl version args w =
      CachedFunc_recall c J call ttl key (isStructOut function) (missRes function) args
        w.calls st1 := by
  unfold CachedFunc_wrapper
  simp only [hkey]
  by_cases hs : isStructOut function = true
  · have hs2 := hs
    unfold isStructOut at hs2
    simp only [hs2, if_true, missRes, hs]
    simp [CacheExt.GetStruct, addressOf, Value.kind, hmiss, Value.isNil, pointee]
  · have hs2 := hs
    unfold isStructOut at hs2
    simp only [hs2, missRes, hs]
    simp [CacheExt.Get, hmiss, Value.isNil]

/-- Whenever the called function returns, the branch returns and has recorded the call. -/
theorem recall_records (c : CacheExt β) (J : JSONCodec) (call : Behaviour) (ttl : Int)
    (key : String) (isStruct : Bool) (cache_res : Value) (args : List Value)
    (calls : List (List Value)) (st : β) (o : Value × Option GoError)
    (hfn : call calls args = some o) :
    ∃ res w2, CachedFunc_recall c J call ttl key isStruct cache_res args calls st =
      Outcome.ret (res, w2) ∧ w2.calls = calls ++ [args] := by
  obtain ⟨r, e⟩ := o
  unfold CachedFunc_recall
  simp only [hfn]
  cases e with
  | some err => exact ⟨_, _, rfl, rfl⟩
  | none =>
    simp only
    split
    · split
      · split <;> exact ⟨_, _, rfl, rfl⟩
      · split <;> exact ⟨_, _, rfl, rfl⟩
    · exact ⟨_, _, rfl, rfl⟩

/-- On a miss of a function with a result type that is not structure-shaped, a primitive
result is stored with `Set` and returned, and the next call is served from the backend. -/
theorem CachedFunc_memoizes_primitive (c : CacheExt β) (J : JSONCodec) (function : Value)
    (call : Behaviour) (ttl version : Int) (args : List Value) (w : World β) (key : String)
    (st1 st2 st3 : β) (y : Value)
    (hok : (c.CachedFunc J function call ttl version).2 = none)
    (hkey : c.MakeCacheKey function version args = Outcome.ret (key, none))
    (hns : isStructOut function = false)
    (hmiss : c.backend.Get (c.trans_key key) w.store = ((Value.nil, none), st1))
    (hfn : call w.calls args = some (y, none))
    (hy : y.primitive = true)
    (hset : c.backend.Set (c.trans_key key) y (seconds ttl) st1 = (none, st2))
    (hget : c.backend.Get (c.trans_key key) st2 = ((y, none), st3)) :
    (c.CachedFunc J function call ttl version).1 args w =
        Outcome.ret ((y, none), ⟨st2, w.calls ++ [args]⟩) ∧
      (c.CachedFunc J function call ttl version).1 args ⟨st2, w.calls ++ [args]⟩ =
        Outcome.ret ((y, none), ⟨st3, w.calls ++ [args]⟩) := by
  rw [CachedFunc_accepted c J function call ttl version hok]
  have hvalid : c.validValue y false = none := by
    cases y with
    | int k n => cases k <;> rfl
    | uint k n => cases k <;> rfl
    | bool b => rfl
    | str s => rfl
    | float k bits => cases k <;> simp [Value.primitive, Value.kind, FloatKind.toKind, supportedKind] at hy
    | other k typ => cases k <;> simp [Value.primitive, Value.kind, OtherKind.toKind, supportedKind] at hy
    | _ => simp [Value.primitive, Value.kind, supportedKind] at hy
  have hnn : y.isNil = false := by
    cases y <;> first | rfl | simp [Value.primitive, Value.kind, supportedKind] at hy
  constructor
  · rw [wrapper_miss c J function call ttl version args w key st1 hkey hmiss]
    simp [CachedFunc_recall, hfn, hnn, hns, CacheExt.Set, hvalid, hset]
  · have hs2 := hns
    unfold isStructOut at hs2
    unfold CachedFunc_wrapper
    simp [hkey, hs2, CacheExt.Get, hget, hnn]

/-- The wrapper of `cache.succ` on the empty in-process backend: the first call stores 6 under
the prefixed key, the second is served from the backend. -/
theorem CachedFunc_memoizes_primitive_witness :
    (memCache.CachedFunc exampleJSON succFn succCall 60 1).1 [Value.int IntKind.Int 5]
          ⟨[], []⟩ =
        Outcome.ret ((Value.int IntKind.Int 6, none),
          ⟨[⟨"app:cache.succ#1#5", Value.int IntKind.Int 6, 60000000000⟩],
            [[Value.int IntKind.Int 5]]⟩) ∧
      (memCache.CachedFunc exampleJSON succFn succCall 60 1).1 [Value.int IntKind.Int 5]
          ⟨[⟨"app:cache.succ#1#5", Value.int IntKind.Int 6, 60000000000⟩],
            [[Value.int IntKind.Int 5]]⟩ =
        Outcome.ret ((Value.int IntKind.Int 6, none),
          ⟨[⟨"app:cache.succ#1#5", Value.int IntKind.Int 6, 60000000000⟩],
            [[Value.int IntKind.Int 5]]⟩) :=
  CachedFunc_memoizes_primitive memCache exampleJSON succFn succCall 60 1
    [Value.int IntKind.Int 5] ⟨[], []⟩ "cache.succ#1#5" []
    [⟨"app:cache.succ#1#5", Value.int IntKind.Int 6, 60000000000⟩]
    [⟨"app:cache.succ#1#5", Value.int IntKind.Int 6, 60000000000⟩]
    (Value.int IntKind.Int 6) rfl rfl rfl rfl rfl rfl rfl rfl

/-- On a hit of a function with a structure-shaped result type, the decoder is given the
address of the interface variable `cache_res` (which holds the `reflect.Value` made by
`reflect.New`), and the wrapper returns what the decoder leaves in that variable. -/
theorem CachedFunc_hit_struct (c : CacheExt β) (J : JSONCodec) (function : Value)
    (call : Behaviour) (ttl version : Int) (args : List Value) (w : World β) (key : String)
    (st1 : β) (text : String) (m1 : Value)
    (hok : (c.CachedFunc J function call ttl version).2 = none)
    (hkey : c.MakeCacheKey function version args = Outcome.ret (key, none))
    (hs : isStructOut function = true)
    (hhit : c.backend.Get (c.trans_key key) w.store = ((Value.str text, none), st1))
    (hdec : J.Unmarshal text (addressOf (reflect_New (function.Out 0))) = (m1, none)) :
    (c.CachedFunc J function call ttl version).1 args w =
      Outcome.ret ((pointee m1, none), ⟨st1, w.calls⟩) := by
  rw [CachedFunc_accepted c J function call ttl version hok]
  have hs2 := hs
  unfold isStructOut at hs2
  unfold CachedFunc_wrapper
  simp only [hkey, hs2, if_true]
  simp [CacheExt.GetStruct, addressOf, Value.kind, hhit, Value.isNil]
  have hdec2 := hdec
  simp only [addressOf] at hdec2
  simp [hdec2]

/-- On a miss, a nil interface result with a nil error is returned and nothing is stored. -/
theorem CachedFunc_nil_interface_not_stored (c : CacheExt β) (J : JSONCodec)
    (function : Value) (call : Behaviour) (ttl version : Int) (args : List Value)
    (w : World β) (key : String) (st1 : β)
    (hok : (c.CachedFunc J function call ttl version).2 = none)
    (hkey : c.MakeCacheKey function version args = Outcome.ret (key, none))
    (hmiss : c.backend.Get (c.trans_key key) w.store = ((Value.nil, none), st1))
    (hfn : call w.calls args = some (Value.nil, none)) :
    (c.CachedFunc J function call ttl version).1 args w =
      Outcome.ret ((missRes function, none), ⟨st1, w.calls ++ [args]⟩) := by
  rw [CachedFunc_accepted c J function call ttl version hok,
    wrapper_miss c J function call ttl version args w key st1 hkey hmiss]
  simp [CachedFunc_recall, hfn, Value.isNil]

/-- On a hit of a function with a result type that is not structure-shaped, the stored value
is returned, the function is not called and the backend sees only the `Get`. -/
theorem CachedFunc_hit_primitive (c : CacheExt β) (J : JSONCodec) (function : Value)
    (call : Behaviour) (ttl version : Int) (args : List Value) (w : World β) (key : String)
    (st1 : β) (v : Value)
    (hok : (c.CachedFunc J function call ttl version).2 = none)
    (hkey : c.MakeCacheKey function version args = Outcome.ret (key, none))
    (hns : isStructOut function = false)
    (hhit : c.backend.Get (c.trans_key key) w.store = ((v, none), st1))
    (hv : v.isNil = false) :
    (c.CachedFunc J function call ttl version).1 args w =
      Outcome.ret ((v, none), ⟨st1, w.calls⟩) := by
  rw [CachedFunc_accepted c J function call ttl version hok]
  have hs2 := hns
  unfold isStructOut at hs2
  unfold CachedFunc_wrapper
  simp [hkey, hs2, CacheExt.Get, hhit, hv]

/-- An error of the backend that comes with a nil value is returned as it is, on both paths:
the function is not called and the backend sees only the `Get`. -/
theorem CachedFunc_lookup_error_nil_value (c : CacheExt β) (J : JSONCodec) (function : Value)
    (call : Behaviour) (ttl version : Int) (args : List Value) (w : World β) (key : String)
    (st1 : β) (err : GoError)
    (hok : (c.CachedFunc J function call ttl version).2 = none)
    (hkey : c.MakeCacheKey function version args = Outcome.ret (key, none))
    (hfail : c.backend.Get (c.trans_key key) w.store = ((Value.nil, some err), st1)) :
    (c.CachedFunc J function call ttl version).1 args w =
      Outcome.ret ((Value.nil, some err), ⟨st1, w.calls⟩) := by
  rw [CachedFunc_accepted c J function call ttl version hok]
  unfold CachedFunc_wrapper
  simp only [hkey]
  split
  · simp [CacheExt.GetStruct, addressOf, Value.kind, hfail, Value.isNil]
  · simp [CacheExt.Get, hfail]

/-- An error of the backend is returned as it is when the result type is not
structure-shaped, whatever value comes with it. -/
theorem CachedFunc_lookup_error_primitive (c : CacheExt β) (J : JSONCodec) (function : Value)
    (call : Behaviour) (ttl version : Int) (args : List Value) (w : World β) (key : String)
    (st1 : β) (data : Value) (err : GoError)
    (hok : (c.CachedFunc J function call ttl version).2 = none)
    (hkey : c.MakeCacheKey function version args = Outcome.ret (key, none))
    (hns : isStructOut function = false)
    (hfail : c.backend.Get (c.trans_key key) w.store = ((data, some err), st1)) :
    (c.CachedFunc J function call ttl version).1 args w =
      Outcome.ret ((Value.nil, some err), ⟨st1, w.calls⟩) := by
  rw [CachedFunc_accepted c J function call ttl version hok]
  have hs2 := hns
  unfold isStructOut at hs2
  unfold CachedFunc_wrapper
  simp [hkey, hs2, CacheExt.Get, hfail]

/-- C7: computation errors are never cached. For every wrapped function and every argument
list with a derived key, if the lookup misses and the function returns `(r, e)` with `e` not
nil, the wrapper returns exactly `(r, e)`, the backend is left in the state the lookup left
it in (no write), the call is recorded; and at the next call with the same arguments, the
lookup missing again, the function is called again. -/
theorem CachedFunc_error_not_cached (c : CacheExt β) (J : JSONCodec) (function : Value)
    (call : Behaviour) (ttl version : Int) (args : List Value) (w : World β) (key : String)
    (st1 : β) (r : Value) (e : GoError)
    (hok : (c.CachedFunc J function call ttl version).2 = none)
    (hkey : c.MakeCacheKey function version args = Outcome.ret (key, none))
    (hmiss : c.backend.Get (c.trans_key key) w.store = ((Value.nil, none), st1))
    (hfn : call w.calls args = some (r, some e)) :
    (c.CachedFunc J function call ttl version).1 args w =
        Outcome.ret ((r, some e), ⟨st1, w.calls ++ [args]⟩) ∧
      ∀ (st2 : β) (o : Value × Option GoError),
        c.backend.Get (c.trans_key key) st1 = ((Value.nil, none), st2) →
        call (w.calls ++ [args]) args = some o →
        ∃ res w2, (c.CachedFunc J function call ttl version).1 args
            ⟨st1, w.calls ++ [args]⟩ = Outcome.ret (res, w2) ∧
          w2.calls = w.calls ++ [args] ++ [args] := by
  rw [CachedFunc_accepted c J function call ttl version hok]
  constructor
  · rw [wrapper_miss c J function call ttl version args w key st1 hkey hmiss]
    simp [CachedFunc_recall, hfn]
  · intro st2 o hmiss2 hfn2
    rw [wrapper_miss c J function call ttl version args ⟨st1, w.calls ++ [args]⟩ key st2 hkey
      hmiss2]
    exact recall_records c J call ttl key _ _ args (w.calls ++ [args]) st2 o hfn2

/-- The wrapper of a failing function on the empty in-process backend: the error comes back,
the backend stays empty and the call is recorded. -/
theorem CachedFunc_error_not_cached_witness :
    (memCache.CachedFunc exampleJSON failFn failCall 60 1).1 [Value.int IntKind.Int 5]
        ⟨[], []⟩ =
      Outcome.ret ((Value.int IntKind.Int 0, some (errors_New "not found")),
        ⟨[], [[Value.int IntKind.Int 5]]⟩) :=
  (CachedFunc_error_not_cached memCache exampleJSON failFn failCall 60 1
    [Value.int IntKind.Int 5] ⟨[], []⟩ "cache.fail#1#5" [] (Value.int IntKind.Int 0)
    (errors_New "not found") rfl rfl rfl rfl).1

/-- C6 on a structure-shaped result: `loadPoint` returns `Point{1, 2}` and no error. The first
call of the wrapper calls it, stores the JSON text under the prefixed key and returns the
structure; the second call does not call it, and returns a `map[string]interface{}`, which
is not the structure. -/
theorem CachedFunc_struct_result_comes_back_generic :
    (memCache.CachedFunc exampleJSON loadPoint loadPointCall 60 1).2 = none ∧
      loadPointCall [] [Value.int IntKind.Int 5] = some (point12, none) ∧
      (memCache.CachedFunc exampleJSON loadPoint loadPointCall 60 1).1
          [Value.int IntKind.Int 5] ⟨[], []⟩ =
        Outcome.ret ((point12, none), loadPointWorld) ∧
      (memCache.CachedFunc exampleJSON loadPoint loadPointCall 60 1).1
          [Value.int IntKind.Int 5] loadPointWorld =
        Outcome.ret ((point12Generic, none), loadPointWorld) ∧
      point12Generic ≠ point12 ∧ point12Generic.kind = Kind.Map :=
  ⟨rfl, rfl, rfl, rfl, fun h => (nomatch h), rfl⟩

/-- C8 on a pointer result type: `findPoint` returns a nil `*Point` and no error. The first
call of the wrapper on the empty backend writes the text `null` under the prefixed key and
returns the nil pointer; the second call finds that entry, does not call the function and
returns the nil interface. -/
theorem CachedFunc_nil_pointer_is_stored :
    (memCache.CachedFunc exampleJSON findPoint findPointCall 60 1).2 = none ∧
      findPointCall [] [Value.int IntKind.Int 5] = some (Value.ptr "*cache.Point" none, none) ∧
      (memCache.CachedFunc exampleJSON findPoint findPointCall 60 1).1
          [Value.int IntKind.Int 5] ⟨[], []⟩ =
        Outcome.ret ((Value.ptr "*cache.Point" none, none), findPointWorld) ∧
      findPointWorld.store ≠ [] ∧
      (memCache.CachedFunc exampleJSON findPoint findPointCall 60 1).1
          [Value.int IntKind.Int 5] findPointWorld =
        Outcome.ret ((Value.nil, none), findPointWorld) :=
  ⟨rfl, rfl, rfl, fun h => (nomatch h), rfl⟩

/-- C9 on a structure-shaped result type: the backend holds the JSON text that `SetStruct`
wrote for `Point{1, 2}` under the derived key. The wrapper of `loadPoint`, whose declared
result type is the structure `Point`, returns a value of kind Map, not of kind Struct (it
does not call the function and writes nothing). -/
theorem CachedFunc_struct_hit_returns_map :
    memCache.SetStruct exampleJSON "cache.loadPoint#1#5" point12 60 [] =
        (none, loadPointWorld.store) ∧
      memCache.MakeCacheKey loadPoint 1 [Value.int IntKind.Int 5] =
        Outcome.ret ("cache.loadPoint#1#5", none) ∧
      (loadPoint.Out 0).kind = Kind.Struct ∧
      (memCache.CachedFunc exampleJSON loadPoint loadPointCall 60 1).1
          [Value.int IntKind.Int 5] ⟨loadPointWorld.store, []⟩ =
        Outcome.ret ((point12Generic, none), ⟨loadPointWorld.store, []⟩) ∧
      point12Generic.kind = Kind.Map :=
  ⟨rfl, rfl, rfl, rfl, rfl⟩

/-- C10 on a structure-shaped result type: the `Get` of the backend returns the empty string
together with a connection error. The wrapper of `loadPoint` returns the error of the JSON
decoder, not the error of the backend; the wrapper of `succFn`, whose result type is an
integer, returns the error of the backend. -/
theorem CachedFunc_struct_lookup_error_replaced :
    unreachableBackend.Get "app:cache.loadPoint#1#5" [] =
        ((Value.str "", some (errors_New "dial tcp 127.0.0.1:6379: connect: connection refused")),
          []) ∧
      (unreachableCache.CachedFunc exampleJSON loadPoint loadPointCall 60 1).1
          [Value.int IntKind.Int 5] ⟨[], []⟩ =
        Outcome.ret ((Value.nil, some (errors_New "unexpected end of JSON input")), ⟨[], []⟩) ∧
      errors_New "unexpected end of JSON input" ≠
        errors_New "dial tcp 127.0.0.1:6379: connect: connection refused" ∧
      (unreachableCache.CachedFunc exampleJSON succFn succCall 60 1).1
          [Value.int IntKind.Int 5] ⟨[], []⟩ =
        Outcome.ret ((Value.nil,
          some (errors_New "dial tcp 127.0.0.1:6379: connect: connection refused")), ⟨[], []⟩) :=
  ⟨rfl, rfl, by decide, rfl⟩

/-! ## Validation at wrap time and in the setters -/

theorem wellShaped_iff (function : Value) :
    wellShaped function = true ↔
      function.kind = Kind.Func ∧ function.NumOut = 2 ∧
        (function.Out 1).implementsError = true := by
  cases function with
  | func name outs =>
    match outs with
    | [] => simp [wellShaped, Value.NumOut, Value.outs]
    | [_] => simp [wellShaped, Value.NumOut, Value.outs]
    | [_, out1] => simp [wellShaped, Value.NumOut, Value.outs, Value.Out, Value.kind]
    | _ :: _ :: _ :: _ => simp [wellShaped, Value.NumOut, Value.outs]
  | int k n => cases k <;> simp [wellShaped, Value.kind, IntKind.toKind]
  | uint k n => cases k <;> simp [wellShaped, Value.kind, UintKind.toKind]
  | float k bits => cases k <;> simp [wellShaped, Value.kind, FloatKind.toKind]
  | other k typ => cases k <;> simp [wellShaped, Value.kind, OtherKind.toKind]
  | _ => simp [wellShaped, Value.kind]

/-- C11: `CachedFunc` validates at wrap time. For every value that is not a function, or is a
function that does not have exactly two results with the second implementing `error`, it
returns a construction error together with a function that, for every argument list and in
every state, returns `(nil, nil)` and leaves the backend and the record of calls as they are;
for every function that has that shape it returns no error. -/
theorem CachedFunc_validates_at_wrap_time (c : CacheExt β) (J : JSONCodec) (function : Value)
    (call : Behaviour) (ttl version : Int) :
    (wellShaped function = false →
        (∃ err, (c.CachedFunc J function call ttl version).2 = some err) ∧
          ∀ (args : List Value) (w : World β),
            (c.CachedFunc J function call ttl version).1 args w =
              Outcome.ret ((Value.nil, none), w)) ∧
      (wellShaped function = true → (c.CachedFunc J function call ttl version).2 = none) := by
  constructor
  · intro hbad
    have hnot : ¬ (function.kind = Kind.Func ∧ function.NumOut = 2 ∧
        (function.Out 1).implementsError = true) := by
      rw [← wellShaped_iff, hbad]; simp
    unfold CacheExt.CachedFunc
    simp only
    split
    · exact ⟨⟨_, rfl⟩, fun _ _ => rfl⟩
    · rename_i hk
      split
      · exact ⟨⟨_, rfl⟩, fun _ _ => rfl⟩
      · rename_i hs
        exfalso
        apply hnot
        simp only [ne_eq, Decidable.not_not] at hk
        simp only [Bool.or_eq_true, decide_eq_true_eq, Bool.not_eq_true', not_or,
          Decidable.not_not, Bool.not_eq_false] at hs
        exact ⟨hk, hs.1, hs.2⟩
  · intro hgood
    obtain ⟨hk, hn, he⟩ := (wellShaped_iff function).mp hgood
    unfold CacheExt.CachedFunc
    simp [hk, hn, he]

/-- A value that is no function, and a function with one result, are both rejected. -/
theorem CachedFunc_validates_at_wrap_time_witness :
    ((∃ err, (memCache.CachedFunc exampleJSON (Value.int IntKind.Int 3) succCall 60 1).2 =
          some err) ∧
        ∀ (args : List Value) (w : World MemStore),
          (memCache.CachedFunc exampleJSON (Value.int IntKind.Int 3) succCall 60 1).1 args w =
            Outcome.ret ((Value.nil, none), w)) ∧
      (memCache.CachedFunc exampleJSON succFn succCall 60 1).2 = none :=
  ⟨(CachedFunc_validates_at_wrap_time memCache exampleJSON (Value.int IntKind.Int 3) succCall
      60 1).1 rfl,
    (CachedFunc_validates_at_wrap_time memCache exampleJSON succFn succCall 60 1).2 rfl⟩

theorem seconds_in_range (ttl : Int) (h : ttlInRange ttl) : seconds ttl = ttlSeconds ttl := by
  unfold ttlInRange at h
  unfold seconds wrapInt64 ttlSeconds
  norm_num
  omega

theorem validValue_primitive (c : CacheExt β) (value : Value) (h : value.primitive = true) :
    c.validValue value false = none := by
  cases value with
  | int k n => cases k <;> rfl
  | uint k n => cases k <;> rfl
  | bool b => rfl
  | str s => rfl
  | float k bits =>
    cases k <;> simp [Value.primitive, Value.kind, FloatKind.toKind, supportedKind] at h
  | other k typ =>
    cases k <;> simp [Value.primitive, Value.kind, OtherKind.toKind, supportedKind] at h
  | _ => simp [Value.primitive, Value.kind, supportedKind] at h

theorem validValue_not_primitive (c : CacheExt β) (value : Value)
    (h : value.primitive = false) : ∃ err, c.validValue value false = some err := by
  cases value with
  | int k n => cases k <;> simp [Value.primitive, Value.kind, IntKind.toKind, supportedKind] at h
  | uint k n =>
    cases k <;> simp [Value.primitive, Value.kind, UintKind.toKind, supportedKind] at h
  | bool b => simp [Value.primitive, Value.kind, supportedKind] at h
  | str s => simp [Value.primitive, Value.kind, supportedKind] at h
  | float k bits => cases k <;> exact ⟨_, rfl⟩
  | other k typ => cases k <;> exact ⟨_, rfl⟩
  | _ => exact ⟨_, rfl⟩

/-- C12, as stated, fails: with a ttl of 9223372037 seconds the duration `Set` hands to the
backend has wrapped around to a negative number of nanoseconds; it is not that of 9223372037
seconds. -/
theorem Set_huge_ttl_wraps :
    (Value.int IntKind.Int 42).primitive = true ∧
      memCache.Set "score" (Value.int IntKind.Int 42) 9223372037 [] =
        (none, [⟨"app:score", Value.int IntKind.Int 42, -9223372036709551616⟩]) ∧
      memBackend.Set "app:score" (Value.int IntKind.Int 42) (ttlSeconds 9223372037) [] =
        (none, [⟨"app:score", Value.int IntKind.Int 42, 9223372037000000000⟩]) ∧
      (-9223372036709551616 : Int) ≠ 9223372037000000000 :=
  ⟨rfl, rfl, rfl, by decide⟩

/-- C12, amended: `Set` validates before storing. For every key, ttl and value whose kind is
outside signed integer, unsigned integer, boolean and string (nil included), `Set` returns
a validation error and leaves the backend state as it is; for every value of a supported
kind and every ttl whose nanoseconds fit 64 bits, `Set` is exactly one `Set` of the backend,
of that value under prefix + key with the duration of ttl seconds, and returns its result. -/
theorem Set_validates_then_stores (c : CacheExt β) (key : String) (value : Value) (ttl : Int)
    (st : β) :
    (value.primitive = false → ∃ err, c.Set key value ttl st = (some err, st)) ∧
      (value.primitive = true → ttlInRange ttl →
        c.Set key value ttl st = c.backend.Set (c.pfx ++ key) value (ttlSeconds ttl) st) := by
  constructor
  · intro h
    obtain ⟨err, herr⟩ := validValue_not_primitive c value h
    exact ⟨err, by simp only [CacheExt.Set, herr]⟩
  · intro h hr
    simp only [CacheExt.Set, validValue_primitive c value h, CacheExt.trans_key,
      seconds_in_range ttl hr]

/-- The calls `Set("score", nil, 60)` and `Set("score", 42, 60)` on the in-process backend. -/
theorem Set_validates_then_stores_witness :
    (∃ err, memCache.Set "score" Value.nil 60 [] = (some err, [])) ∧
      memCache.Set "score" (Value.int IntKind.Int 42) 60 [] =
        memBackend.Set "app:score" (Value.int IntKind.Int 42) 60000000000 [] :=
  ⟨(Set_validates_then_stores memCache "score" Value.nil 60 []).1 rfl,
    (Set_validates_then_stores memCache "score" (Value.int IntKind.Int 42) 60 []).2 rfl
      (by decide)⟩

/-- A value of kind Struct or Ptr that serializes is stored as its text, by one `Set` of the
backend. -/
theorem SetStruct_stores_text (c : CacheExt β) (J : JSONCodec) (key : String) (value : Value)
    (ttl : Int) (st : β) (text : String)
    (hk : value.kind = Kind.Struct ∨ value.kind = Kind.Ptr)
    (hm : J.Marshal value = (text, none)) :
    c.SetStruct J key value ttl st =
      c.backend.Set (c.pfx ++ key) (Value.str text) (seconds ttl) st := by
  have hv : c.validValue value true = none := by
    unfold CacheExt.validValue
    rcases hk with hk | hk <;> simp [hk]
  simp only [CacheExt.SetStruct, hv, hm, CacheExt.trans_key]

/-- C13, as stated, fails: a pointer to an integer is neither a structure nor a pointer to a
structure, and `SetStruct` accepts it and writes its JSON text to the backend. -/
theorem SetStruct_accepts_pointer_to_integer :
    intPtr5.kind = Kind.Ptr ∧ (pointee intPtr5).kind = Kind.Int ∧
      memCache.SetStruct exampleJSON "k" intPtr5 60 [] =
        (none, [⟨"app:k", Value.str "5", 60000000000⟩]) :=
  ⟨rfl, rfl, rfl⟩

/-- C13, amended: `SetStruct` accepts exactly the values of kind Struct or Ptr (any pointer).
For every value of another kind it returns a validation error and leaves the backend state
as it is; for every value of kind Struct or Ptr that serializes, it stores the JSON text
under prefix + key, with the effect and the result of `Set(key, jsonText, ttl)`. -/
theorem SetStruct_validates_kind (c : CacheExt β) (J : JSONCodec) (key : String)
    (value : Value) (ttl : Int) (st : β) :
    (value.kind ≠ Kind.Struct → value.kind ≠ Kind.Ptr →
        ∃ err, c.SetStruct J key value ttl st = (some err, st)) ∧
      (value.kind = Kind.Struct ∨ value.kind = Kind.Ptr →
        ∀ text, J.Marshal value = (text, none) →
          c.SetStruct J key value ttl st = c.Set key (Value.str text) ttl st ∧
            c.SetStruct J key value ttl st =
              c.backend.Set (c.pfx ++ key) (Value.str text) (seconds ttl) st) := by
  constructor
  · intro h1 h2
    have : ∃ err, c.validValue value true = some err := by
      unfold CacheExt.validValue
      simp only [if_true]
      exact ⟨_, rfl⟩
    obtain ⟨err, herr⟩ := this
    exact ⟨err, by simp only [CacheExt.SetStruct, herr]⟩
  · intro hk text hm
    have hv : c.validValue value true = none := by
      unfold CacheExt.validValue
      rcases hk with hk | hk <;> simp [hk]
    have hs : c.validValue (Value.str text) false = none := rfl
    constructor
    · simp only [CacheExt.SetStruct, hv, hm, CacheExt.Set, hs]
    · simp only [CacheExt.SetStruct, hv, hm, CacheExt.trans_key]

/-- The calls `SetStruct("k", 7, 60)` and `SetStruct("k", Point{1, 2}, 60)` on the in-process
backend. -/
theorem SetStruct_validates_kind_witness :
    (∃ err, memCache.SetStruct exampleJSON "k" (Value.int IntKind.Int 7) 60 [] =
        (some err, [])) ∧
      memCache.SetStruct exampleJSON "k" point12 60 [] =
        memCache.Set "k" (Value.str point12Text) 60 [] :=
  ⟨(SetStruct_validates_kind memCache exampleJSON "k" (Value.int IntKind.Int 7) 60 []).1
      (by decide) (by decide),
    ((SetStruct_validates_kind memCache exampleJSON "k" point12 60 []).2 (Or.inl rfl)
      point12Text rfl).1⟩

/-! ## Round trips -/

theorem MemStore_find_remove (st : MemStore) (a b : String) (h : a ≠ b) :
    (st.remove a).find b = st.find b := by
  unfold MemStore.find MemStore.remove
  rw [List.find?_filter]
  congr 1
  funext e
  by_cases hb : e.key = b
  · have : e.key ≠ a := fun ha => h (ha.symm.trans hb)
    simp [hb, this]
    exact fun hab => h hab.symm
  · simp [hb]

theorem MemStore_find_put (st : MemStore) (a b : String) (v : Value) (d : Int) (h : a ≠ b) :
    (st.put a v d).find b = st.find b := by
  have hr := MemStore_find_remove st a b h
  unfold MemStore.find at hr ⊢
  unfold MemStore.put
  rw [List.find?_cons]
  have hb : (a == b) = false := by simp [h]
  simp only [hb]
  exact hr

theorem MemStore_find_put_same (st : MemStore) (a : String) (v : Value) (d : Int) :
    (st.put a v d).find a = some ⟨a, v, d⟩ := by
  unfold MemStore.find MemStore.put
  simp

theorem memBackend_GetAfterSet : GetAfterSet memBackend := by
  intro key value d st
  simp [memBackend, MemStore_find_put_same]

theorem memBackend_view (key : String) (st : MemStore) :
    memBackend.view key st =
      ((match st.find key with
        | some e => (e.value, none)
        | none => (Value.nil, none)),
       (st.find key).isSome,
       (match st.find key with
        | some e => if e.ttl = 0 then -1 else e.ttl / 1000000000
        | none => -2)) := by
  unfold CacheBackend.view memBackend
  simp only
  cases st.find key <;> rfl

theorem memBackend_KeyLocal : KeyLocal memBackend := by
  intro a b hab st
  refine ⟨?_, ?_, ?_⟩
  · intro value d
    rw [memBackend_view, memBackend_view]
    have : (memBackend.Set a value d st).2 = st.put a value d := rfl
    rw [this, MemStore_find_put st a b value d hab]
  · rw [memBackend_view, memBackend_view]
    have : (memBackend.Delete a st).2 = st.remove a := rfl
    rw [this, MemStore_find_remove st a b hab]
  · intro d
    rw [memBackend_view, memBackend_view]
    have : (memBackend.Expire a d st).2 = st ∨
        ∃ v, (memBackend.Expire a d st).2 = st.put a v d := by
      unfold memBackend
      simp only
      cases st.find a with
      | none => exact Or.inl rfl
      | some e => exact Or.inr ⟨e.value, rfl⟩
    rcases this with h | ⟨v, h⟩
    · rw [h]
    · rw [h, MemStore_find_put st a b v d hab]

theorem GetStruct_seen_congr (c : CacheExt β) (J : JSONCodec) (key : String) (m : Value)
    (st st2 : β)
    (h : (c.backend.Get (c.trans_key key) st).1 = (c.backend.Get (c.trans_key key) st2).1) :
    GetStruct_seen (c.GetStruct J key m st) = GetStruct_seen (c.GetStruct J key m st2) := by
  rcases hr : c.backend.Get (c.trans_key key) st with ⟨⟨data, err⟩, st1⟩
  rcases hr2 : c.backend.Get (c.trans_key key) st2 with ⟨⟨data2, err2⟩, st3⟩
  rw [hr, hr2] at h
  simp only [Prod.mk.injEq] at h
  obtain ⟨rfl, rfl⟩ := h
  by_cases hk : m.kind = Kind.Ptr
  · cases data with
    | str text =>
      rcases hu : J.Unmarshal text m with ⟨m1, _ | e⟩ <;>
        simp [CacheExt.GetStruct, hk, hr, hr2, Value.isNil, hu, GetStruct_seen]
    | _ => simp [CacheExt.GetStruct, hk, hr, hr2, Value.isNil, GetStruct_seen]
  · simp [CacheExt.GetStruct, hk, GetStruct_seen]

/-- When the lookup of `GetStruct` finds a text, what the caller sees is what the decoder
leaves. -/
theorem GetStruct_seen_hit (c : CacheExt β) (J : JSONCodec) (key : String) (m m1 : Value)
    (st : β) (text : String) (hm : m.kind = Kind.Ptr)
    (hget : (c.backend.Get (c.pfx ++ key) st).1 = (Value.str text, none))
    (hdec : J.Unmarshal text m = (m1, none)) :
    GetStruct_seen (c.GetStruct J key m st) = Outcome.ret ((true, none), m1) := by
  rcases hr : c.backend.Get (c.pfx ++ key) st with ⟨⟨data, err⟩, st1⟩
  rw [hr] at hget
  simp only [Prod.mk.injEq] at hget
  obtain ⟨rfl, rfl⟩ := hget
  simp [CacheExt.GetStruct, CacheExt.trans_key, hm, hr, Value.isNil, hdec, GetStruct_seen]

/-- When the lookup of `GetStruct` finds nothing, the caller sees `(false, nil)` and `m` as
it was. -/
theorem GetStruct_seen_miss (c : CacheExt β) (J : JSONCodec) (key : String) (m : Value)
    (st : β) (hm : m.kind = Kind.Ptr)
    (hget : (c.backend.Get (c.pfx ++ key) st).1 = (Value.nil, none)) :
    GetStruct_seen (c.GetStruct J key m st) = Outcome.ret ((false, none), m) := by
  rcases hr : c.backend.Get (c.pfx ++ key) st with ⟨⟨data, err⟩, st1⟩
  rw [hr] at hget
  simp only [Prod.mk.injEq] at hget
  obtain ⟨rfl, rfl⟩ := hget
  simp [CacheExt.GetStruct, CacheExt.trans_key, hm, hr, Value.isNil, GetStruct_seen]

/-- C14, as stated, fails: `Secret{token: "abc"}` is a structure that serializes (to the
text of the empty object, its field not being exported); `SetStruct` succeeds, and the
following `GetStruct` into a zero `Secret` returns `(true, nil)` and leaves the zero value,
which is not the value that was stored. -/
theorem struct_round_trip_loses_unexported_field :
    secretAbc.kind = Kind.Struct ∧
      exampleJSON.Marshal secretAbc = ("\x7b\x7d", none) ∧
      memCache.SetStruct exampleJSON "k" secretAbc 60 [] =
        (none, [⟨"app:k", Value.str "\x7b\x7d", 60000000000⟩]) ∧
      memCache.GetStruct exampleJSON "k" (Value.ptr "*cache.Secret" (some secretZero))
          [⟨"app:k", Value.str "\x7b\x7d", 60000000000⟩] =
        Outcome.ret ((true, none), Value.ptr "*cache.Secret" (some secretZero),
          [⟨"app:k", Value.str "\x7b\x7d", 60000000000⟩]) ∧
      secretZero ≠ secretAbc :=
  ⟨rfl, rfl, rfl, rfl, by simp [secretZero, secretAbc]⟩

/-- C14, amended: the structure round trip, for a structure whose JSON text decodes back to
it. For every key, every ttl, every structure value `s` that serializes to a text which
`json.Unmarshal` decodes through `&out` into `s`, over a backend where a `Get` after a `Set`
of the same key returns the stored value, `SetStruct(k, s, ttl)` succeeds and the following
`GetStruct(k, &out)` returns `(true, nil)` and leaves `out` equal to `s`; and `GetStruct`
through a pointer on a key with no entry returns `(false, nil)` and leaves `out` as it was. -/
theorem struct_round_trip (c : CacheExt β) (J : JSONCodec) (key : String) (s out : Value)
    (typ text : String) (ttl : Int) (st : β)
    (hlaw : GetAfterSet c.backend)
    (hkind : s.kind = Kind.Struct)
    (hser : J.Marshal s = (text, none))
    (hdec : J.Unmarshal text (Value.ptr typ (some out)) = (Value.ptr typ (some s), none)) :
    (c.SetStruct J key s ttl st).1 = none ∧
      GetStruct_seen (c.GetStruct J key (Value.ptr typ (some out))
          (c.SetStruct J key s ttl st).2) =
        Outcome.ret ((true, none), Value.ptr typ (some s)) ∧
      pointee (Value.ptr typ (some s)) = s ∧
      ∀ (st2 : β), (c.backend.Get (c.pfx ++ key) st2).1 = (Value.nil, none) →
        GetStruct_seen (c.GetStruct J key (Value.ptr typ (some out)) st2) =
          Outcome.ret ((false, none), Value.ptr typ (some out)) := by
  have hset := SetStruct_stores_text c J key s ttl st text (Or.inl hkind) hser
  obtain ⟨h1, h2⟩ := hlaw (c.pfx ++ key) (Value.str text) (seconds ttl) st
  refine ⟨?_, ?_, rfl, ?_⟩
  · rw [hset]; exact h1
  · rw [hset]
    exact GetStruct_seen_hit c J key _ _ _ text rfl h2 hdec
  · intro st2 hmiss
    exact GetStruct_seen_miss c J key _ st2 rfl hmiss

/-- The round trip of `Point{1, 2}` through the in-process backend, into a zero `Point`. -/
theorem struct_round_trip_witness :
    (memCache.SetStruct exampleJSON "k" point12 60 []).1 = none ∧
      GetStruct_seen (memCache.GetStruct exampleJSON "k"
          (Value.ptr "*cache.Point" (some pointZero))
          (memCache.SetStruct exampleJSON "k" point12 60 []).2) =
        Outcome.ret ((true, none), Value.ptr "*cache.Point" (some point12)) :=
  ⟨(struct_round_trip memCache exampleJSON "k" point12 pointZero "*cache.Point" point12Text
      60 [] memBackend_GetAfterSet rfl rfl rfl).1,
    (struct_round_trip memCache exampleJSON "k" point12 pointZero "*cache.Point" point12Text
      60 [] memBackend_GetAfterSet rfl rfl rfl).2.1⟩

/-- C15: the primitive round trip. For every extension (every prefix) over a backend where a
`Get` after a `Set` of the same key returns the stored value, every key, every ttl and every
value of kind signed integer, unsigned integer, boolean or string, `Set(k, v, ttl)` succeeds
and the following `Get(k)` returns `(v, nil)`. -/
theorem Set_Get_round_trip (c : CacheExt β) (key : String) (v : Value) (ttl : Int) (st : β)
    (hlaw : GetAfterSet c.backend) (hv : v.primitive = true) :
    (c.Set key v ttl st).1 = none ∧ (c.Get key (c.Set key v ttl st).2).1 = (v, none) := by
  have hset : c.Set key v ttl st = c.backend.Set (c.pfx ++ key) v (seconds ttl) st := by
    simp only [CacheExt.Set, validValue_primitive c v hv, CacheExt.trans_key]
  rw [hset]
  exact hlaw (c.pfx ++ key) v (seconds ttl) st

/-- The calls `Set("score", 42, 60)` and `Get("score")` on the in-process backend. -/
theorem Set_Get_round_trip_witness :
    (memCache.Set "score" (Value.int IntKind.Int 42) 60 []).1 = none ∧
      (memCache.Get "score" (memCache.Set "score" (Value.int IntKind.Int 42) 60 []).2).1 =
        (Value.int IntKind.Int 42, none) :=
  Set_Get_round_trip memCache "score" (Value.int IntKind.Int 42) 60 [] memBackend_GetAfterSet
    rfl

/-! ## Key namespaces -/

theorem CacheExt_view_congr (c : CacheExt β) (J : JSONCodec) (key : String) (m : Value)
    (st st2 : β)
    (h : c.backend.view (c.pfx ++ key) st = c.backend.view (c.pfx ++ key) st2) :
    c.view J key m st = c.view J key m st2 := by
  unfold CacheBackend.view at h
  simp only [Prod.mk.injEq] at h
  obtain ⟨hg, he, ht⟩ := h
  unfold CacheExt.view
  have h1 : (c.Get key st).1 = (c.Get key st2).1 := hg
  have h2 : GetStruct_seen (c.GetStruct J key m st) = GetStruct_seen (c.GetStruct J key m st2) :=
    GetStruct_seen_congr c J key m st st2 hg
  have h3 : (c.Exists key st).1 = (c.Exists key st2).1 := he
  have h4 : (c.TTL key st).1 = (c.TTL key st2).1 := ht
  rw [h1, h2, h3, h4]

theorem Set_state (c : CacheExt β) (key : String) (value : Value) (ttl : Int) (st : β) :
    (c.Set key value ttl st).2 = st ∨
      (c.Set key value ttl st).2 = (c.backend.Set (c.pfx ++ key) value (seconds ttl) st).2 := by
  unfold CacheExt.Set
  cases c.validValue value false with
  | some err => exact Or.inl rfl
  | none => exact Or.inr rfl

theorem SetStruct_state (c : CacheExt β) (J : JSONCodec) (key : String) (value : Value)
    (ttl : Int) (st : β) :
    (c.SetStruct J key value ttl st).2 = st ∨
      ∃ text, (c.SetStruct J key value ttl st).2 =
        (c.backend.Set (c.pfx ++ key) (Value.str text) (seconds ttl) st).2 := by
  unfold CacheExt.SetStruct
  cases c.validValue value true with
  | some err => exact Or.inl rfl
  | none =>
    rcases hm : J.Marshal value with ⟨text, _ | err⟩
    · exact Or.inr ⟨text, by simp only [hm, CacheExt.trans_key]⟩
    · exact Or.inl (by simp only [hm])

/-- Prefixes of the same length that differ give different translated keys, whatever the
keys. -/
theorem trans_key_ne_of_same_length (p1 p2 k1 k2 : String) (hlen : p1.length = p2.length)
    (hne : p1 ≠ p2) : p1 ++ k1 ≠ p2 ++ k2 := by
  intro h
  have hd := congrArg String.data h
  simp only [String.data_append] at hd
  exact hne (String.ext (List.append_inj hd hlen).1)

/-- C16, as stated, fails: two extensions over one in-process backend with the different
prefixes `a` and `ab`. Before, `Get("c")` through the second finds nothing; after
`Set("bc", 1, 60)` through the first, it returns 1. -/
theorem prefix_collision :
    tenantA.pfx ≠ tenantAB.pfx ∧ tenantA.backend = tenantAB.backend ∧
      (tenantAB.Get "c" []).1 = (Value.nil, none) ∧
      (tenantA.Set "bc" (Value.int IntKind.Int 1) 60 []).1 = none ∧
      (tenantAB.Get "c" (tenantA.Set "bc" (Value.int IntKind.Int 1) 60 []).2).1 =
        (Value.int IntKind.Int 1, none) :=
  ⟨by decide, rfl, rfl, rfl, rfl⟩

/-- Two texts with a common extension: one is an initial segment of the other. -/
theorem initial_of_append_eq : ∀ (a b x y : List Char), a ++ x = b ++ y → a <+: b ∨ b <+: a := by
  intro a
  induction a with
  | nil => intro b x y _; exact Or.inl ⟨b, rfl⟩
  | cons ch a ih =>
    intro b x y h
    cases b with
    | nil => exact Or.inr ⟨ch :: a, rfl⟩
    | cons ch2 b =>
      simp only [List.cons_append, List.cons.injEq] at h
      obtain ⟨hc, ht⟩ := h
      subst hc
      rcases ih b x y ht with ⟨t, ht2⟩ | ⟨t, ht2⟩
      · exact Or.inl ⟨t, by rw [List.cons_append, ht2]⟩
      · exact Or.inr ⟨t, by rw [List.cons_append, ht2]⟩

/-- Prefixes neither of which is an initial segment of the other give different translated
keys, whatever the keys. -/
theorem trans_key_ne_of_separate (p1 p2 k1 k2 : String) (h12 : ¬ initialPart p1 p2)
    (h21 : ¬ initialPart p2 p1) : p1 ++ k1 ≠ p2 ++ k2 := by
  intro h
  have hd := congrArg String.data h
  simp only [String.data_append] at hd
  rcases initial_of_append_eq _ _ _ _ hd with hp | hp
  · exact h12 hp
  · exact h21 hp

/-- Writes under one translated key leave what is read under another: for two extensions
that share a key-local backend and two keys whose translated keys differ, a `Set`,
`SetStruct`, `Delete` or `Expire` of the first key through the first extension leaves what
`Get`, `GetStruct`, `Exists` and `TTL` of the second key return through the second. -/
theorem distinct_keys_isolated (c1 c2 : CacheExt β) (J : JSONCodec) (k1 k2 : String)
    (m : Value) (st : β)
    (hshare : c1.backend = c2.backend) (hlocal : KeyLocal c2.backend)
    (hne : c1.pfx ++ k1 ≠ c2.pfx ++ k2) :
    (∀ (v : Value) (ttl : Int), c2.view J k2 m (c1.Set k1 v ttl st).2 = c2.view J k2 m st) ∧
      (∀ (v : Value) (ttl : Int),
        c2.view J k2 m (c1.SetStruct J k1 v ttl st).2 = c2.view J k2 m st) ∧
      c2.view J k2 m (c1.Delete k1 st).2 = c2.view J k2 m st ∧
      (∀ (ttl : Int), c2.view J k2 m (c1.Expire k1 ttl st).2 = c2.view J k2 m st) := by
  obtain ⟨hset, hdel, hexp⟩ := hlocal (c1.pfx ++ k1) (c2.pfx ++ k2) hne st
  refine ⟨?_, ?_, ?_, ?_⟩
  · intro v ttl
    rcases Set_state c1 k1 v ttl st with h | h
    · rw [h]
    · rw [h, hshare]
      exact CacheExt_view_congr c2 J k2 m _ _ (hset v (seconds ttl))
  · intro v ttl
    rcases SetStruct_state c1 J k1 v ttl st with h | ⟨text, h⟩
    · rw [h]
    · rw [h, hshare]
      exact CacheExt_view_congr c2 J k2 m _ _ (hset (Value.str text) (seconds ttl))
  · have h : (c1.Delete k1 st).2 = (c2.backend.Delete (c1.pfx ++ k1) st).2 := by
      rw [← hshare]; rfl
    rw [h]
    exact CacheExt_view_congr c2 J k2 m _ _ hdel
  · intro ttl
    have h : (c1.Expire k1 ttl st).2 = (c2.backend.Expire (c1.pfx ++ k1) (seconds ttl) st).2 := by
      rw [← hshare]; rfl
    rw [h]
    exact CacheExt_view_congr c2 J k2 m _ _ (hexp (seconds ttl))

/-- C16, amended: the prefix isolates tenants whose prefixes do not extend one another. For
every two extensions that share one backend (one whose writes on a key leave the reads of
every other key) and are configured with prefixes neither of which is an initial segment of
the other, and for every pair of keys `k1`, `k2`, a `Set`, `SetStruct`, `Delete` or `Expire`
of `k1` through the first never changes what `Get`, `GetStruct`, `Exists` or `TTL` of `k2`
returns through the second. -/
theorem prefix_isolates_tenants (c1 c2 : CacheExt β) (J : JSONCodec) (m : Value) (st : β)
    (hshare : c1.backend = c2.backend) (hlocal : KeyLocal c2.backend)
    (h12 : ¬ initialPart c1.pfx c2.pfx) (h21 : ¬ initialPart c2.pfx c1.pfx) :
    ∀ (k1 k2 : String),
      (∀ (v : Value) (ttl : Int),
        c2.view J k2 m (c1.Set k1 v ttl st).2 = c2.view J k2 m st) ∧
      (∀ (v : Value) (ttl : Int),
        c2.view J k2 m (c1.SetStruct J k1 v ttl st).2 = c2.view J k2 m st) ∧
      c2.view J k2 m (c1.Delete k1 st).2 = c2.view J k2 m st ∧
      (∀ (ttl : Int), c2.view J k2 m (c1.Expire k1 ttl st).2 = c2.view J k2 m st) :=
  fun k1 k2 =>
    distinct_keys_isolated c1 c2 J k1 k2 m st hshare hlocal
      (trans_key_ne_of_separate c1.pfx c2.pfx k1 k2 h12 h21)

/-- Two extensions with the prefixes `app1:` and `app2:` over one in-process backend: for
all keys, a `Set` through the first leaves what the second reads; so it is for the same key
`user:7` on both sides. -/
theorem prefix_isolates_tenants_witness :
    (¬ initialPart tenant1.pfx tenant2.pfx ∧ ¬ initialPart tenant2.pfx tenant1.pfx) ∧
      (∀ (k1 k2 : String) (v : Value) (ttl : Int),
        tenant2.view exampleJSON k2 (Value.ptr "*cache.Point" (some pointZero))
            (tenant1.Set k1 v ttl []).2 =
          tenant2.view exampleJSON k2 (Value.ptr "*cache.Point" (some pointZero)) []) ∧
      tenant2.view exampleJSON "user:7" (Value.ptr "*cache.Point" (some pointZero))
          (tenant1.Set "user:7" (Value.int IntKind.Int 1) 60 []).2 =
        tenant2.view exampleJSON "user:7" (Value.ptr "*cache.Point" (some pointZero)) [] :=
  ⟨⟨by decide, by decide⟩,
    fun k1 k2 =>
      (prefix_isolates_tenants tenant1 tenant2 exampleJSON
        (Value.ptr "*cache.Point" (some pointZero)) [] rfl memBackend_KeyLocal (by decide)
        (by decide) k1 k2).1,
    (prefix_isolates_tenants tenant1 tenant2 exampleJSON
      (Value.ptr "*cache.Point" (some pointZero)) [] rfl memBackend_KeyLocal (by decide)
      (by decide) "user:7" "user:7").1 (Value.int IntKind.Int 1) 60⟩

/-! ## Faults -/

/-- C17 at two inputs: `GetStruct` on a key under which `Set` stored the integer 42 panics
(the type assertion to string fails), and `SetMany` with two keys and one value panics (the
index is out of range); neither returns an error. -/
theorem facade_operations_panic :
    memCache.Set "k" (Value.int IntKind.Int 42) 60 [] =
        (none, [⟨"app:k", Value.int IntKind.Int 42, 60000000000⟩]) ∧
      memCache.GetStruct exampleJSON "k" (Value.ptr "*cache.Point" (some pointZero))
          [⟨"app:k", Value.int IntKind.Int 42, 60000000000⟩] =
        Outcome.panic "interface conversion: interface {} is not string" ∧
      memCache.SetMany ["a", "b"] [Value.int IntKind.Int 1] 60 [] =
        Outcome.panic "runtime error: index out of range" :=
  ⟨rfl, rfl, rfl⟩

/-! ## Bulk operations -/

theorem SetMany_loop_primitive (d : CacheExt β) : ∀ (ks : List String) (vs : List Value),
    (∀ v ∈ vs, v.primitive = true) → vs.length = ks.length →
    d.SetMany_loop ks vs = Outcome.ret (.ok (ks.map (fun k => d.pfx ++ k))) := by
  intro ks
  induction ks with
  | nil => intro vs _ _; cases vs <;> rfl
  | cons k ks ih =>
    intro vs hp hlen
    cases vs with
    | nil => simp at hlen
    | cons v vs =>
      have hv := validValue_primitive d v (hp v (List.mem_cons_self _ _))
      have hrest := ih vs (fun x hx => hp x (List.mem_cons_of_mem _ hx))
        (by simpa using hlen)
      simp only [CacheExt.SetMany_loop, hv, hrest, CacheExt.trans_key, List.map_cons]

/-- C18, as stated, fails: with a ttl of 9223372037 seconds the duration `SetMany` hands to
the backend has wrapped around to a negative number of nanoseconds; it is not that of
9223372037 seconds. -/
theorem SetMany_huge_ttl_wraps :
    memCache.SetMany ["a"] [Value.int IntKind.Int 1] 9223372037 [] =
        Outcome.ret (none, [⟨"app:a", Value.int IntKind.Int 1, -9223372036709551616⟩]) ∧
      memBackend.SetMany ["app:a"] [Value.int IntKind.Int 1] (ttlSeconds 9223372037) [] =
        (none, [⟨"app:a", Value.int IntKind.Int 1, 9223372037000000000⟩]) ∧
      (-9223372036709551616 : Int) ≠ 9223372037000000000 :=
  ⟨rfl, rfl, by decide⟩

/-- C18, amended: the bulk operations mirror the backend after prefix translation, in order
and length. For every key list, `GetMany` is the `GetMany` of the backend on the list of the
prefixed keys (same length, the key at each position prefixed), `DeleteMany` is the
`DeleteMany` of the backend on that list, and `SetMany` with as many values as keys, all
primitive, and a ttl whose nanoseconds fit 64 bits, is the `SetMany` of the backend on that
list with the values unchanged and the duration of ttl seconds. -/
theorem bulk_operations_mirror_backend (d : CacheExt β) (ks : List String) (vs : List Value)
    (ttl : Int) (st : β) :
    d.GetMany ks st = d.backend.GetMany (ks.map (fun k => d.pfx ++ k)) st ∧
      d.DeleteMany ks st = d.backend.DeleteMany (ks.map (fun k => d.pfx ++ k)) st ∧
      (ks.map (fun k => d.pfx ++ k)).length = ks.length ∧
      (∀ (i : Nat) (k : String), ks[i]? = some k →
        (ks.map (fun k => d.pfx ++ k))[i]? = some (d.pfx ++ k)) ∧
      ((∀ v ∈ vs, v.primitive = true) → vs.length = ks.length → ttlInRange ttl →
        d.SetMany ks vs ttl st =
          Outcome.ret (d.backend.SetMany (ks.map (fun k => d.pfx ++ k)) vs
            (ttlSeconds ttl) st)) := by
  refine ⟨rfl, rfl, List.length_map _ _, ?_, ?_⟩
  · intro i k hk
    simp [List.getElem?_map, hk]
  · intro hp hlen hr
    simp only [CacheExt.SetMany, SetMany_loop_primitive d ks vs hp hlen,
      seconds_in_range ttl hr]

/-- The call `SetMany(["a", "b"], [1, "x"], 60)` on the in-process backend. -/
theorem bulk_operations_mirror_backend_witness :
    memCache.SetMany ["a", "b"] [Value.int IntKind.Int 1, Value.str "x"] 60 [] =
      Outcome.ret (memBackend.SetMany ["app:a", "app:b"]
        [Value.int IntKind.Int 1, Value.str "x"] 60000000000 []) :=
  (bulk_operations_mirror_backend memCache ["a", "b"] [Value.int IntKind.Int 1, Value.str "x"]
    60 []).2.2.2.2 (by decide) rfl (by decide)

/-! ## Keys up to rendering -/

/-- C19: `MakeCacheKey` is injective up to the rendering of its arguments. For every two
inputs with primitive arguments in which neither identity nor any string argument contains
`#`, if the two calls return the same key then the identities are equal, the versions are
equal, the argument lists have the same length, and the arguments at each position have the
same rendering. -/
theorem MakeCacheKey_injective_up_to_rendering (c : CacheExt β) (id1 id2 : String)
    (outs1 outs2 : List GoType) (v1 v2 : Int) (args1 args2 : List Value) (key : String)
    (hp1 : ∀ a ∈ args1, a.primitive = true) (hp2 : ∀ a ∈ args2, a.primitive = true)
    (hid1 : ¬ hasSep id1) (hid2 : ¬ hasSep id2)
    (hs1 : ∀ a ∈ args1, sepFree a) (hs2 : ∀ a ∈ args2, sepFree a)
    (h1 : c.MakeCacheKey (Value.func id1 outs1) v1 args1 = Outcome.ret (key, none))
    (h2 : c.MakeCacheKey (Value.func id2 outs2) v2 args2 = Outcome.ret (key, none)) :
    id1 = id2 ∧ v1 = v2 ∧ args1.length = args2.length ∧
      ∀ (i : Nat) (a b : Value), args1[i]? = some a → args2[i]? = some b →
        render a = render b := by
  rw [MakeCacheKey_func c id1 outs1 v1 args1 hp1] at h1
  rw [MakeCacheKey_func c id2 outs2 v2 args2 hp2] at h2
  simp only [Outcome.ret.injEq, Prod.mk.injEq, and_true] at h1 h2
  obtain ⟨hi, hv, hm⟩ := key_inj id1 id2 v1 v2 args1 args2 hid1 hid2 hs1 hs2 (h1.trans h2.symm)
  refine ⟨hi, hv, ?_, ?_⟩
  · have := congrArg List.length hm
    simpa using this
  · intro i a b ha hb
    have := congrArg (fun l => l[i]?) hm
    simp only [List.getElem?_map, ha, hb, Option.map_some'] at this
    exact Option.some.inj this

/-- The key `cache.succ#1#7#true` comes from the arguments `(7, true)` and from the arguments
`("7", "true")`: same identity, same version, same length, same renderings. -/
theorem MakeCacheKey_injective_up_to_rendering_witness :
    "cache.succ" = "cache.succ" ∧ (1 : Int) = 1 ∧
      [Value.int IntKind.Int 7, Value.bool true].length =
        [Value.str "7", Value.str "true"].length ∧
      ∀ (i : Nat) (a b : Value), [Value.int IntKind.Int 7, Value.bool true][i]? = some a →
        [Value.str "7", Value.str "true"][i]? = some b → render a = render b :=
  MakeCacheKey_injective_up_to_rendering memCache "cache.succ" "cache.succ"
    [intType, errorType] [intType, errorType] 1 1 [Value.int IntKind.Int 7, Value.bool true]
    [Value.str "7", Value.str "true"] "cache.succ#1#7#true" (by decide) (by decide)
    (by decide) (by decide) (by decide) (by decide) rfl rfl

/-! ## A store that fails -/

/-- The store of the wrapper: `SetStruct` on the structure path, `Set` otherwise. -/
theorem recall_store_fails (c : CacheExt β) (J : JSONCodec) (call : Behaviour) (ttl : Int)
    (key : String) (isStruct : Bool) (cache_res : Value) (args : List Value)
    (calls : List (List Value)) (st st2 : β) (y : Value) (err : GoError)
    (hfn : call calls args = some (y, none)) (hy : y.isNil = false)
    (hstore : (if isStruct then c.SetStruct J key y ttl st else c.Set key y ttl st) =
      (some err, st2)) :
    CachedFunc_recall c J call ttl key isStruct cache_res args calls st =
      Outcome.ret ((y, some err), ⟨st2, calls ++ [args]⟩) := by
  unfold CachedFunc_recall
  cases isStruct with
  | true =>
    simp only [if_true] at hstore
    simp [hfn, hy, hstore]
  | false =>
    simp only [Bool.false_eq_true, if_false] at hstore
    simp [hfn, hy, hstore]

/-- A value that validation rejects is not handed to the backend. -/
theorem store_rejected (c : CacheExt β) (J : JSONCodec) (key : String) (isStruct : Bool)
    (y : Value) (ttl : Int) (st : β) (verr : GoError)
    (hv : c.validValue y isStruct = some verr) :
    (if isStruct then c.SetStruct J key y ttl st else c.Set key y ttl st) = (some verr, st) := by
  cases isStruct with
  | true => simp only [if_true, CacheExt.SetStruct, hv]
  | false => simp only [Bool.false_eq_true, if_false, CacheExt.Set, hv]

/-- C20: a failed store does not hide the computed value. For every wrapped function and
every argument list with a derived key, if the lookup misses and the function returns a
value `y` that is not nil with a nil error, and the store (`SetStruct` on the structure
path, `Set` otherwise) fails with an error, then the wrapper returns `(y, error)`; and when
it is validation that rejects `y`, the backend is left as the lookup left it, and a next call
with the same arguments, the lookup missing again and the function returning `y` again,
calls the function again and returns `(y, error)` again. -/
theorem CachedFunc_failed_store_returns_value (c : CacheExt β) (J : JSONCodec)
    (function : Value) (call : Behaviour) (ttl version : Int) (args : List Value)
    (w : World β) (key : String) (st1 st2 : β) (y : Value) (err : GoError)
    (hok : (c.CachedFunc J function call ttl version).2 = none)
    (hkey : c.MakeCacheKey function version args = Outcome.ret (key, none))
    (hmiss : c.backend.Get (c.trans_key key) w.store = ((Value.nil, none), st1))
    (hfn : call w.calls args = some (y, none)) (hy : y.isNil = false)
    (hstore : (if isStructOut function then c.SetStruct J key y ttl st1
      else c.Set key y ttl st1) = (some err, st2)) :
    (c.CachedFunc J function call ttl version).1 args w =
        Outcome.ret ((y, some err), ⟨st2, w.calls ++ [args]⟩) ∧
      ∀ (verr : GoError), c.validValue y (isStructOut function) = some verr →
        err = verr ∧ st2 = st1 ∧
          ∀ (st3 : β), c.backend.Get (c.trans_key key) st1 = ((Value.nil, none), st3) →
            call (w.calls ++ [args]) args = some (y, none) →
            (c.CachedFunc J function call ttl version).1 args ⟨st1, w.calls ++ [args]⟩ =
              Outcome.ret ((y, some err), ⟨st3, w.calls ++ [args] ++ [args]⟩) := by
  rw [CachedFunc_accepted c J function call ttl version hok]
  constructor
  · rw [wrapper_miss c J function call ttl version args w key st1 hkey hmiss]
    exact recall_store_fails c J call ttl key _ _ args w.calls st1 st2 y err hfn hy hstore
  · intro verr hv
    have hrej := store_rejected c J key (isStructOut function) y ttl st1 verr hv
    rw [hrej] at hstore
    simp only [Prod.mk.injEq, Option.some.injEq] at hstore
    obtain ⟨he, hs⟩ := hstore
    refine ⟨he.symm, hs.symm, ?_⟩
    intro st3 hmiss2 hfn2
    rw [wrapper_miss c J function call ttl version args ⟨st1, w.calls ++ [args]⟩ key st3 hkey
      hmiss2]
    exact recall_store_fails c J call ttl key _ _ args (w.calls ++ [args]) st3 st3 y err hfn2
      hy (by rw [← he]; exact store_rejected c J key _ y ttl st3 verr hv)

/-- The wrapper of a function with a `float64` result on the empty in-process backend: the
value comes back with the validation error, the backend stays empty, the call is recorded. -/
theorem CachedFunc_failed_store_returns_value_witness :
    (memCache.CachedFunc exampleJSON ratioFn ratioCall 60 1).1 [Value.int IntKind.Int 5]
        ⟨[], []⟩ =
      Outcome.ret ((float15, some (errors_New "Basic value not supported type: float64")),
        ⟨[], [[Value.int IntKind.Int 5]]⟩) :=
  (CachedFunc_failed_store_returns_value memCache exampleJSON ratioFn ratioCall 60 1
    [Value.int IntKind.Int 5] ⟨[], []⟩ "cache.ratio#1#5" [] [] float15
    (errors_New "Basic value not supported type: float64") rfl rfl rfl rfl rfl rfl).1

end cache
